import Mathlib

/-!
Shallow embedding of `src/speed_distance/speed_distance.py`
(classes `ViewTransformer` and `SpeedAndDistanceEstimator`).

Positions, speeds and distances are modelled as exact real numbers;
Python `dict`s whose key set is observable are modelled as association
lists in insertion order, the others as total functions with a default;
`deque(maxlen=n)` is a list truncated to its last `n` elements on append;
fallible values are `Option`s.
-/

namespace SportCV

/-- A 2-D point (pixel or real-world coordinates). -/
abbrev Pos : Type := ℝ × ℝ

/-- Modelled from the spec: the repository's `utils.measure_distance`
(imported by the source but not present under `src/`) is the Euclidean
distance between two 2-D points. -/
noncomputable def measure_distance (p q : Pos) : ℝ :=
  Real.sqrt ((q.1 - p.1) ^ 2 + (q.2 - p.2) ^ 2)

/-- Modelled from the spec: the repository's `utils.get_foot_position`
(imported by the source but not present under `src/`) is the
bottom-centre of a bounding box `(x1, y1, x2, y2)`. -/
noncomputable def get_foot_position (bb : ℝ × ℝ × ℝ × ℝ) : Pos :=
  ((bb.1 + bb.2.2.1) / 2, bb.2.2.2)

/-- Python `int(x)`: truncation toward zero. -/
noncomputable def pyInt (x : ℝ) : ℤ :=
  if 0 ≤ x then ⌊x⌋ else ⌈x⌉

/-- Append to a `deque(maxlen = m)`: keep the last `m` elements. -/
def dqAppend (m : ℕ) (l : List α) (x : α) : List α :=
  (l ++ [x]).drop ((l ++ [x]).length - m)

/-- Python slice `l[-w:]` (for `w = 0` the slice `l[-0:]` is all of `l`). -/
def pySliceLast (w : ℕ) (l : List α) : List α :=
  if w = 0 then l else l.drop (l.length - w)

/-- Python `l[-1]` with a default for the (unreachable) empty case. -/
def pyLast (d : α) (l : List α) : α := (l.getLast?).getD d

/-- Python `l[0]` with a default for the (unreachable) empty case. -/
def pyHead (d : α) (l : List α) : α := (l.head?).getD d

/-- Association-list read with default `0` (`defaultdict(float)` read
without vivification). -/
def dtGetD : List (String × ℝ) → String → ℝ
  | [], _ => 0
  | (k', v) :: t, k => if k' = k then v else dtGetD t k

/-- Key-presence test on an association list (`key in dict`). -/
def dtMem : List (String × ℝ) → String → Bool
  | [], _ => false
  | (k', _) :: t, k => k' = k || dtMem t k

/-- Write through an association list; a missing key is appended at the
end (Python dict insertion order). -/
def dtSet : List (String × ℝ) → String → ℝ → List (String × ℝ)
  | [], k, v => [(k, v)]
  | (k', v') :: t, k, v =>
    if k' = k then (k', v) :: t else (k', v') :: dtSet t k v

/-- `defaultdict` read that vivifies a missing key with `0.0`. -/
def dtVivify (l : List (String × ℝ)) (k : String) : List (String × ℝ) :=
  if dtMem l k then l else l ++ [(k, 0)]

/-- `del dict[key]`. -/
def dtDelete : List (String × ℝ) → String → List (String × ℝ)
  | [], _ => []
  | (k', v) :: t, k => if k' = k then t else (k', v) :: dtDelete t k

/-- `numpy.median`: sort ascending, take the middle element (odd length)
or the mean of the two middle elements (even length). -/
noncomputable def npMedian (l : List ℝ) : ℝ :=
  let s := l.insertionSort (· ≤ ·)
  let n := s.length
  if n % 2 = 1 then s.getD (n / 2) 0
  else (s.getD (n / 2 - 1) 0 + s.getD (n / 2) 0) / 2

/-- Constructor configuration of `SpeedAndDistanceEstimator`. -/
structure Config where
  frame_rate : ℝ
  smoothing_window : ℕ
  max_reasonable_speed : ℝ

/-- Default constructor arguments (`frame_rate=30, smoothing_window=5,
max_reasonable_speed=40.0`). -/
def defaultConfig : Config :=
  { frame_rate := 30, smoothing_window := 5, max_reasonable_speed := 40 }

/-- A per-entity per-frame track record (dynamic dict in the source,
explicit optional fields here). -/
structure TrackInfo where
  bbox : Option (ℝ × ℝ × ℝ × ℝ) := none
  position : Option Pos := none
  position_adjusted : Option Pos := none
  position_transformed : Option Pos := none
  speed : Option ℝ := none
  distance : Option ℝ := none

/-- One frame of one entity class: track-id ↦ record. -/
abbrev FrameTrack : Type := List (String × TrackInfo)

/-- The tracker output: entity class ↦ per-frame sequence of records. -/
abbrev Tracks : Type := List (String × List FrameTrack)

/-- Mutable state of `SpeedAndDistanceEstimator`. -/
structure EstState where
  position_history : String → List (Pos × ℕ × Bool)
  speed_history : String → List ℝ
  distance_traveled : List (String × ℝ)
  display_cache : String → Option (ℝ × ℝ)

/-- Freshly constructed estimator state: all histories empty. -/
def initState : EstState :=
  { position_history := fun _ => []
    speed_history := fun _ => []
    distance_traveled := []
    display_cache := fun _ => none }

/-- The composite key `f"{obj}_{tid}"`. -/
def mkKey (obj tid : String) : String := obj ++ "_" ++ tid

/-- Sum of consecutive pairwise distances in
`_calculate_instantaneous_speed` (pixel distances divided by 10). -/
noncomputable def pairDistSum (use_pixel : Bool) : List Pos → ℝ
  | p :: q :: rest =>
    (if use_pixel then
      Real.sqrt ((q.1 - p.1) ^ 2 + (q.2 - p.2) ^ 2) / 10
    else measure_distance p q) + pairDistSum use_pixel (q :: rest)
  | _ => 0

/-- `SpeedAndDistanceEstimator._calculate_instantaneous_speed`. -/
noncomputable def calc_instantaneous_speed (cfg : Config) (positions : List Pos)
    (frame_indices : List ℕ) (use_pixel_coords : Bool) : Option ℝ :=
  if positions.length < 2 then none
  else
    let recent_positions :=
      pySliceLast (min cfg.smoothing_window positions.length) positions
    let recent_indices :=
      pySliceLast (min cfg.smoothing_window frame_indices.length) frame_indices
    if recent_positions.length < 2 then none
    else
      let total_distance := pairDistSum use_pixel_coords recent_positions
      let time_diff : ℝ :=
        ((pyLast 0 recent_indices : ℕ) - (pyHead 0 recent_indices : ℕ) : ℝ) /
          cfg.frame_rate
      if time_diff ≤ 0 then none
      else
        let speed_kmph := total_distance / time_diff * 3.6
        if cfg.max_reasonable_speed < speed_kmph then none
        else some speed_kmph

/-- `SpeedAndDistanceEstimator._calculate_distance_increment`. -/
noncomputable def calc_distance_increment (prev_pos curr_pos : Pos)
    (use_pixel_coords : Bool) : Option ℝ :=
  if use_pixel_coords then
    let distance :=
      Real.sqrt ((curr_pos.1 - prev_pos.1) ^ 2 + (curr_pos.2 - prev_pos.2) ^ 2) / 10
    if 2 < distance then none else some distance
  else
    let distance := measure_distance prev_pos curr_pos
    if 5 < distance then none else some distance

/-- `SpeedAndDistanceEstimator._smooth_speed` (appends the raw value to
the bounded speed history, then reports the median once ≥ 3 samples). -/
noncomputable def smooth_speed (s : EstState) (player_id : String)
    (new_speed : Option ℝ) : EstState × Option ℝ :=
  match new_speed with
  | none => (s, none)
  | some v =>
    let h := dqAppend 10 (s.speed_history player_id) v
    let s' := { s with
      speed_history := fun k => if k = player_id then h else s.speed_history k }
    if 3 ≤ h.length then (s', some (npMedian h)) else (s', some v)

/-- Position-source selection at the top of the per-record loop: prefer
the transformed position, else fall back to the adjusted-or-raw pixel
position with the pixel flag set. -/
def resolvePosition (info : TrackInfo) : Option Pos × Bool :=
  match info.position_transformed with
  | some p => (some p, false)
  | none =>
    match info.position_adjusted.or info.position with
    | some p => (some p, true)
    | none => (none, false)

/-- Re-apply a cached speed/distance pair to a record when one exists,
else leave the record untouched. -/
def applyCacheTo (s : EstState) (player_key : String) (info : TrackInfo) :
    TrackInfo :=
  match s.display_cache player_key with
  | some c => { info with speed := some c.1, distance := some c.2 }
  | none => info

/-- Lines 210–222 of the source: the incremental-distance update.
Compute the increment between the two most recent history samples (only
when their coordinate flags agree) and accumulate it unless rejected. -/
noncomputable def applyIncrement (s2 : EstState) (player_key : String)
    (prevS currS : Pos × ℕ × Bool) (use_pixel_coords : Bool) : EstState :=
  if prevS.2.2 = currS.2.2 then
    match calc_distance_increment prevS.1 currS.1 use_pixel_coords with
    | some inc =>
      let dt := dtSet s2.distance_traveled player_key
        (dtGetD s2.distance_traveled player_key + inc)
      { s2 with distance_traveled := dt }
    | none => s2
  else s2

/-- The consistent-window computation body of the per-record loop:
raw speed over the recent window, median smoothing, distance increment
between the two latest samples, then (on a non-absent smoothed speed)
annotation and cache refresh. -/
noncomputable def computeStep (cfg : Config) (s1 : EstState) (player_key : String)
    (pos_hist : List (Pos × ℕ × Bool)) (use_pixel_coords : Bool)
    (info : TrackInfo) : EstState × TrackInfo :=
  let recent := pySliceLast cfg.smoothing_window pos_hist
  let raw_speed :=
    calc_instantaneous_speed cfg (recent.map (·.1)) (recent.map (·.2.1))
      use_pixel_coords
  let sm := smooth_speed s1 player_key raw_speed
  let s3 := applyIncrement sm.1 player_key
    (pos_hist.getD (pos_hist.length - 2) ((0, 0), 0, false))
    (pos_hist.getD (pos_hist.length - 1) ((0, 0), 0, false)) use_pixel_coords
  match sm.2 with
  | some v =>
    let dt' := dtVivify s3.distance_traveled player_key
    let dval := dtGetD dt' player_key
    ({ s3 with
        distance_traveled := dt'
        display_cache := fun k =>
          if k = player_key then some (v, dval) else s3.display_cache k },
      { info with speed := some v, distance := some dval })
  | none => (s3, info)

/-- Body of the innermost loop of `add_speed_and_distance_to_tracks`:
process one record of one entity at one frame, returning the updated
estimator state and the (possibly annotated) record. -/
noncomputable def processInfo (cfg : Config) (s : EstState) (obj tid : String)
    (frame_idx : ℕ) (info : TrackInfo) : EstState × TrackInfo :=
  let player_key := mkKey obj tid
  let posMode := resolvePosition info
  match posMode.1 with
  | none => (s, applyCacheTo s player_key info)
  | some position =>
    let use_pixel_coords := posMode.2
    let pos_hist :=
      dqAppend 20 (s.position_history player_key) (position, frame_idx, use_pixel_coords)
    let s1 := { s with
      position_history := fun k =>
        if k = player_key then pos_hist else s.position_history k }
    if 2 ≤ pos_hist.length then
      let recent := pySliceLast cfg.smoothing_window pos_hist
      let coord_type_consistent := recent.all (fun pd => pd.2.2 == use_pixel_coords)
      if 2 ≤ recent.length ∧ coord_type_consistent then
        computeStep cfg s1 player_key pos_hist use_pixel_coords info
      else (s1, applyCacheTo s1 player_key info)
    else
      match s1.display_cache player_key with
      | none =>
        ({ s1 with display_cache := fun k =>
            if k = player_key then some (0, 0) else s1.display_cache k },
          { info with speed := some 0, distance := some 0 })
      | some _ => (s1, info)

/-- One frame of one entity class: iterate the records in order,
threading the estimator state. -/
noncomputable def processTrack (cfg : Config) (obj : String) (frame_idx : ℕ) :
    EstState → FrameTrack → EstState × FrameTrack
  | s, [] => (s, [])
  | s, (tid, info) :: rest =>
    let r := processInfo cfg s obj tid frame_idx info
    let rr := processTrack cfg obj frame_idx r.1 rest
    (rr.1, (tid, r.2) :: rr.2)

/-- All frames of one entity class, in frame order (`enumerate`). -/
noncomputable def processFrames (cfg : Config) (obj : String) :
    EstState → ℕ → List FrameTrack → EstState × List FrameTrack
  | s, _, [] => (s, [])
  | s, i, fr :: rest =>
    let r := processTrack cfg obj i s fr
    let rr := processFrames cfg obj r.1 (i + 1) rest
    (rr.1, r.2 :: rr.2)

/-- `SpeedAndDistanceEstimator.add_speed_and_distance_to_tracks`:
entity classes `"ball"` and `"referees"` are skipped unchanged. -/
noncomputable def add_speed_and_distance_to_tracks (cfg : Config) :
    EstState → Tracks → EstState × Tracks
  | s, [] => (s, [])
  | s, (obj, obj_tracks) :: rest =>
    if obj = "ball" ∨ obj = "referees" then
      let rr := add_speed_and_distance_to_tracks cfg s rest
      (rr.1, (obj, obj_tracks) :: rr.2)
    else
      let r := processFrames cfg obj s 0 obj_tracks
      let rr := add_speed_and_distance_to_tracks cfg r.1 rest
      (rr.1, (obj, r.2) :: rr.2)

/-- `SpeedAndDistanceEstimator.reset_player_data`: a truthy key clears
that entity's state; `None` (or the falsy empty string) clears all. -/
def reset_player_data (s : EstState) (player_key : Option String) : EstState :=
  match player_key with
  | some k =>
    if k = "" then initState
    else
      { position_history := fun k' => if k' = k then [] else s.position_history k'
        speed_history := fun k' => if k' = k then [] else s.speed_history k'
        distance_traveled := dtDelete s.distance_traveled k
        display_cache := fun k' => if k' = k then none else s.display_cache k' }
  | none => initState

/-- One row of `get_player_stats`. -/
structure PlayerStats where
  total_distance : ℝ
  avg_speed : ℝ
  max_speed : ℝ
  current_speed : ℝ

/-- `SpeedAndDistanceEstimator.get_player_stats`: one row per key of
the distance accumulator, aggregating that key's speed history (an
empty history is falsy in Python, yielding the zero defaults). -/
noncomputable def get_player_stats (s : EstState) : List (String × PlayerStats) :=
  s.distance_traveled.map (fun kv =>
    (kv.1,
      match s.speed_history kv.1 with
      | [] =>
        { total_distance := kv.2, avg_speed := 0, max_speed := 0, current_speed := 0 }
      | v :: rest =>
        { total_distance := kv.2
          avg_speed := (v :: rest).sum / (v :: rest).length
          max_speed := rest.foldl max v
          current_speed := pyLast 0 (v :: rest) }))

/-- One `cv2.putText` call recorded during rendering: which entity it
belongs to, whether it is the speed line or the distance line, the
numeric value shown, and the clamped text position. -/
structure OverlayText where
  obj : String
  tid : String
  isSpeedLine : Bool
  value : ℝ
  x : ℤ
  y : ℤ

/-- A video frame: its shape plus everything drawn on it so far. -/
structure Image where
  h : ℕ
  w : ℕ
  texts : List OverlayText

/-- The overlay texts one record contributes in `draw_speed_and_distance`
(empty when the entity is skipped: unresolvable speed/distance, or no
bounding box). -/
noncomputable def draw_entity (s : EstState) (obj tid : String) (info : TrackInfo)
    (h w : ℕ) : List OverlayText :=
  let player_key := mkKey obj tid
  let sd : Option ℝ × Option ℝ :=
    if info.speed = none ∨ info.distance = none then
      match s.display_cache player_key with
      | some c => (some c.1, some c.2)
      | none => (info.speed, info.distance)
    else (info.speed, info.distance)
  match sd.1, sd.2 with
  | some speed, some distance =>
    match info.bbox with
    | some bbox =>
      let foot_pos := get_foot_position bbox
      let text_x := pyInt foot_pos.1
      let text_y := pyInt (foot_pos.2 + 40)
      let text_x := max 0 (min text_x ((w : ℤ) - 100))
      let text_y := max 20 (min text_y ((h : ℤ) - 40))
      [{ obj := obj, tid := tid, isSpeedLine := true, value := speed,
         x := text_x, y := text_y },
       { obj := obj, tid := tid, isSpeedLine := false, value := distance,
         x := text_x, y := text_y + 18 }]
    | none => []
  | _, _ => []

/-- All overlay texts drawn onto frame `frame_idx` (entity classes
`"ball"`/`"referees"` skipped; classes with fewer frames skipped). -/
noncomputable def frameOverlays (s : EstState) (tracks : Tracks) (frame_idx : ℕ)
    (h w : ℕ) : List OverlayText :=
  tracks.flatMap (fun ot =>
    if ot.1 = "ball" ∨ ot.1 = "referees" then []
    else if ot.2.length ≤ frame_idx then []
    else (ot.2.getD frame_idx []).flatMap (fun ti =>
      draw_entity s ot.1 ti.1 ti.2 h w))

/-- `SpeedAndDistanceEstimator.draw_speed_and_distance`: one output
image per input frame, each a copy of the input with the frame's
overlay texts appended. -/
noncomputable def draw_speed_and_distance (s : EstState) (frames : List Image)
    (tracks : Tracks) : List Image :=
  (frames.enum).map (fun ifr =>
    { ifr.2 with
        texts := ifr.2.texts ++ frameOverlays s tracks ifr.1 ifr.2.h ifr.2.w })

/-! ### `ViewTransformer` -/

/-- The four manually measured pixel corners of the court. -/
def pixel_vertices : List Pos := [(110, 1035), (265, 275), (910, 260), (1640, 915)]

/-- The corresponding real-world corners in meters (68 × 105 court). -/
def target_vertices : List Pos := [(0, 68), (0, 0), (105, 0), (105, 68)]

/-- 2-D cross product of `b - a` and `p - a`: the side of directed edge
`a → b` that `p` lies on. -/
def edgeCross (a b p : Pos) : ℝ :=
  (b.1 - a.1) * (p.2 - a.2) - (b.2 - a.2) * (p.1 - a.1)

/-- Minimum of the four edge tests of the calibration quadrilateral.
The vertices are in convex position and consistently oriented, so this
models `cv2.pointPolygonTest(pixel_vertices, p, False)`'s sign: positive
inside, zero on the contour, negative outside. -/
def sideMin (p : Pos) : ℝ :=
  min (min (edgeCross (110, 1035) (265, 275) p) (edgeCross (265, 275) (910, 260) p))
    (min (edgeCross (910, 260) (1640, 915) p) (edgeCross (1640, 915) (110, 1035) p))

/-- The perspective matrix `cv2.getPerspectiveTransform(pixel_vertices,
target_vertices)` computes: the unique homography (normalised to
`h33 = 1`) sending each pixel corner to its real-world corner; solved
exactly, and certified below by the four corner-mapping theorems. -/
def homography : (ℚ × ℚ × ℚ) × (ℚ × ℚ × ℚ) × (ℚ × ℚ) :=
  ((1276326824 / 3776354333, 260303497 / 3776354333, -409810070035 / 3776354333),
   (1507353824 / 132172401655, 64816214432 / 132172401655,
     -3644781546432 / 26434480331),
   (-1129564 / 18881771665, 113947439 / 26434480331))

/-- `cv2.perspectiveTransform` applied to one point: divide by the
projective factor `w` when it is nonzero, else yield the origin. -/
noncomputable def applyHomography (p : Pos) : Pos :=
  let m := homography
  let w : ℝ := (m.2.2.1 : ℝ) * p.1 + (m.2.2.2 : ℝ) * p.2 + 1
  if w = 0 then (0, 0)
  else (((m.1.1 : ℝ) * p.1 + (m.1.2.1 : ℝ) * p.2 + (m.1.2.2 : ℝ)) / w,
    ((m.2.1.1 : ℝ) * p.1 + (m.2.1.2.1 : ℝ) * p.2 + (m.2.1.2.2 : ℝ)) / w)

/-- `ViewTransformer.transform_point`: truncate the point to integers,
reject it if that integer point lies outside the calibration contour,
otherwise perspective-transform the original (untruncated) point.
Numeric failure is absorbed into the `Option` (the source's
`try/except` returns `None`). -/
noncomputable def transform_point (point : Pos) : Option Pos :=
  let p : Pos := ((pyInt point.1 : ℤ), (pyInt point.2 : ℤ))
  if sideMin p < 0 then none
  else some (applyHomography point)

/-! ### Basic lemmas about the container helpers -/

theorem dtGetD_nonneg {l : List (String × ℝ)} (h : ∀ kv ∈ l, 0 ≤ kv.2)
    (k : String) : 0 ≤ dtGetD l k := by
  induction l with
  | nil => simp [dtGetD]
  | cons a t ih =>
    simp only [dtGetD]
    split
    · exact h a (by simp)
    · exact ih fun kv hkv => h kv (by simp [hkv])

theorem dtGetD_dtSet_self (l : List (String × ℝ)) (k : String) (v : ℝ) :
    dtGetD (dtSet l k v) k = v := by
  induction l with
  | nil => simp [dtSet, dtGetD]
  | cons a t ih =>
    by_cases hk : a.1 = k
    · simp [dtSet, dtGetD, hk]
    · simp [dtSet, dtGetD, hk, ih]

theorem dtGetD_dtSet_ne (l : List (String × ℝ)) {k k' : String} (v : ℝ)
    (hne : k' ≠ k) : dtGetD (dtSet l k v) k' = dtGetD l k' := by
  induction l with
  | nil =>
    have hkk : ¬k = k' := fun h => hne h.symm
    simp [dtSet, dtGetD, hkk]
  | cons a t ih =>
    by_cases hk : a.1 = k
    · have hak : ¬a.1 = k' := fun h => hne (h.symm.trans hk)
      have hkk : ¬k = k' := fun h => hne h.symm
      simp [dtSet, dtGetD, hk, hak, hkk]
    · simp [dtSet, dtGetD, hk, ih]

theorem dtSet_forall {l : List (String × ℝ)} {P : ℝ → Prop}
    (h : ∀ kv ∈ l, P kv.2) {k : String} {v : ℝ} (hv : P v) :
    ∀ kv ∈ dtSet l k v, P kv.2 := by
  induction l with
  | nil => simpa [dtSet] using hv
  | cons a t ih =>
    intro kv hkv
    by_cases hk : a.1 = k
    · simp only [dtSet, if_pos hk] at hkv
      rcases List.mem_cons.1 hkv with hkv | hkv
      · simp [hkv, hv]
      · exact h kv (by simp [hkv])
    · simp only [dtSet, if_neg hk] at hkv
      rcases List.mem_cons.1 hkv with hkv | hkv
      · exact h kv (by simp [hkv])
      · exact ih (fun kv hkv => h kv (by simp [hkv])) kv hkv

theorem dtGetD_eq_zero_of_not_mem {l : List (String × ℝ)} {k : String}
    (h : dtMem l k = false) : dtGetD l k = 0 := by
  induction l with
  | nil => rfl
  | cons a t ih =>
    simp only [dtMem, Bool.or_eq_false_iff, decide_eq_false_iff_not] at h
    simp [dtGetD, h.1, ih h.2]

theorem dtGetD_append_single (l : List (String × ℝ)) (k k' : String) (v : ℝ) :
    dtGetD (l ++ [(k, v)]) k' =
      if dtMem l k' then dtGetD l k' else if k = k' then v else 0 := by
  induction l with
  | nil => simp [dtGetD, dtMem]
  | cons a t ih =>
    by_cases hk : a.1 = k'
    · simp [dtGetD, dtMem, hk]
    · simp [dtGetD, dtMem, hk, ih]

theorem dtGetD_dtVivify (l : List (String × ℝ)) (k k' : String) :
    dtGetD (dtVivify l k) k' = dtGetD l k' := by
  unfold dtVivify
  split
  · rfl
  · rename_i hmem
    rw [dtGetD_append_single]
    by_cases hm : dtMem l k' = true
    · simp [hm]
    · simp only [Bool.not_eq_true] at hm
      rw [dtGetD_eq_zero_of_not_mem hm]
      simp [hm]

theorem dtVivify_forall {l : List (String × ℝ)} {P : ℝ → Prop}
    (h : ∀ kv ∈ l, P kv.2) (h0 : P 0) {k : String} :
    ∀ kv ∈ dtVivify l k, P kv.2 := by
  unfold dtVivify
  split
  · exact h
  · intro kv hkv
    rcases List.mem_append.1 hkv with hkv | hkv
    · exact h kv hkv
    · simp only [List.mem_singleton] at hkv
      simp [hkv, h0]

theorem mem_of_mem_dqAppend {m : ℕ} {l : List α} {x y : α}
    (h : y ∈ dqAppend m l x) : y ∈ l ∨ y = x := by
  have hsub : y ∈ l ++ [x] := List.mem_of_mem_drop h
  rcases List.mem_append.1 hsub with h' | h'
  · exact Or.inl h'
  · exact Or.inr (List.mem_singleton.1 h')

theorem mem_of_mem_pySliceLast {w : ℕ} {l : List α} {x : α}
    (h : x ∈ pySliceLast w l) : x ∈ l := by
  unfold pySliceLast at h
  split at h
  · exact h
  · exact List.mem_of_mem_drop h

/-! ### Bounds for the numeric kernels -/

theorem measure_distance_nonneg (p q : Pos) : 0 ≤ measure_distance p q :=
  Real.sqrt_nonneg _

theorem pairDistSum_nonneg (b : Bool) (l : List Pos) : 0 ≤ pairDistSum b l := by
  induction l with
  | nil => simp [pairDistSum]
  | cons p t ih =>
    cases t with
    | nil => simp [pairDistSum]
    | cons q r =>
      simp only [pairDistSum]
      have h1 : 0 ≤ (if b then Real.sqrt ((q.1 - p.1) ^ 2 + (q.2 - p.2) ^ 2) / 10
          else measure_distance p q) := by
        split
        · positivity
        · exact measure_distance_nonneg p q
      exact add_nonneg h1 ih

theorem calc_instantaneous_speed_bounds {cfg : Config} {positions : List Pos}
    {frame_indices : List ℕ} {b : Bool} {v : ℝ}
    (h : calc_instantaneous_speed cfg positions frame_indices b = some v) :
    0 ≤ v ∧ v ≤ cfg.max_reasonable_speed := by
  unfold calc_instantaneous_speed at h
  split at h
  · exact absurd h (by simp)
  dsimp only at h
  split at h
  · exact absurd h (by simp)
  split at h
  · exact absurd h (by simp)
  rename_i htime
  split at h
  · exact absurd h (by simp)
  rename_i hmax
  simp only [Option.some.injEq] at h
  subst h
  push_neg at htime hmax
  refine ⟨?_, hmax⟩
  have h1 := pairDistSum_nonneg b
    (pySliceLast (min cfg.smoothing_window positions.length) positions)
  have h2 := le_of_lt htime
  exact mul_nonneg (div_nonneg h1 h2) (by norm_num)

theorem calc_distance_increment_bounds {p q : Pos} {b : Bool} {d : ℝ}
    (h : calc_distance_increment p q b = some d) :
    0 ≤ d ∧ d ≤ (if b then (2 : ℝ) else 5) := by
  unfold calc_distance_increment at h
  dsimp only at h
  split at h
  · split at h
    · exact absurd h (by simp)
    · rename_i hb hle
      push_neg at hle
      simp only [Option.some.injEq] at h
      subst h
      simp only [hb, if_true]
      exact ⟨by positivity, hle⟩
  · split at h
    · exact absurd h (by simp)
    · rename_i hb hle
      push_neg at hle
      simp only [Option.some.injEq] at h
      subst h
      simp only [hb, if_false]
      exact ⟨measure_distance_nonneg p q, hle⟩

theorem npMedian_bounds {l : List ℝ} {lo hi : ℝ} (hne : l ≠ [])
    (hb : ∀ x ∈ l, lo ≤ x ∧ x ≤ hi) :
    lo ≤ npMedian l ∧ npMedian l ≤ hi := by
  have hperm := List.perm_insertionSort (· ≤ ·) l
  have hmem : ∀ x ∈ l.insertionSort (· ≤ ·), lo ≤ x ∧ x ≤ hi := fun x hx =>
    hb x (hperm.mem_iff.1 hx)
  have hlen : (l.insertionSort (· ≤ ·)).length = l.length := hperm.length_eq
  have hpos : 0 < (l.insertionSort (· ≤ ·)).length := by
    rw [hlen]
    exact List.length_pos.2 hne
  set srt := l.insertionSort (· ≤ ·) with hsrt
  have hget : ∀ i : ℕ, i < srt.length → lo ≤ srt.getD i 0 ∧ srt.getD i 0 ≤ hi := by
    intro i hi'
    rw [List.getD_eq_getElem srt 0 hi']
    exact hmem _ (List.getElem_mem hi')
  unfold npMedian
  rw [← hsrt]
  dsimp only
  split
  · exact hget _ (Nat.div_lt_of_lt_mul (by omega))
  · rename_i hodd
    have h2 : 2 ≤ srt.length := by omega
    have hb1 := hget (srt.length / 2 - 1) (by omega)
    have hb2 := hget (srt.length / 2) (Nat.div_lt_of_lt_mul (by omega))
    constructor
    · linarith [hb1.1, hb2.1]
    · linarith [hb1.2, hb2.2]

/-! ### The estimator state invariant -/

/-- Invariant maintained by every update step: accumulator entries are
non-negative; every cached speed/distance pair is within `[0, ceiling]`
resp. non-negative and dominated by the current accumulator value for
its key; every stored raw speed sample is within `[0, ceiling]`. -/
def StateInv (cfg : Config) (s : EstState) : Prop :=
  (∀ kv ∈ s.distance_traveled, 0 ≤ kv.2) ∧
  (∀ k sp d, s.display_cache k = some (sp, d) →
    0 ≤ sp ∧ sp ≤ cfg.max_reasonable_speed ∧ 0 ≤ d ∧
      d ≤ dtGetD s.distance_traveled k) ∧
  (∀ k v, v ∈ s.speed_history k → 0 ≤ v ∧ v ≤ cfg.max_reasonable_speed)

theorem stateInv_initState (cfg : Config) : StateInv cfg initState := by
  refine ⟨?_, ?_, ?_⟩ <;> simp [initState]

theorem smooth_speed_spec (cfg : Config) (s : EstState) (key : String)
    (raw : Option ℝ)
    (hs : ∀ k v, v ∈ s.speed_history k → 0 ≤ v ∧ v ≤ cfg.max_reasonable_speed)
    (hraw : ∀ v, raw = some v → 0 ≤ v ∧ v ≤ cfg.max_reasonable_speed) :
    (smooth_speed s key raw).1.position_history = s.position_history ∧
    (smooth_speed s key raw).1.distance_traveled = s.distance_traveled ∧
    (smooth_speed s key raw).1.display_cache = s.display_cache ∧
    (∀ k v, v ∈ (smooth_speed s key raw).1.speed_history k →
      0 ≤ v ∧ v ≤ cfg.max_reasonable_speed) ∧
    (∀ v, (smooth_speed s key raw).2 = some v →
      0 ≤ v ∧ v ≤ cfg.max_reasonable_speed) := by
  cases raw with
  | none => exact ⟨rfl, rfl, rfl, hs, by simp [smooth_speed]⟩
  | some v0 =>
    have hv0 := hraw v0 rfl
    have hmem : ∀ v, v ∈ dqAppend 10 (s.speed_history key) v0 →
        0 ≤ v ∧ v ≤ cfg.max_reasonable_speed := by
      intro v hv
      rcases mem_of_mem_dqAppend hv with h' | h'
      · exact hs key v h'
      · exact h' ▸ hv0
    have hsh : ∀ k v,
        v ∈ (if k = key then dqAppend 10 (s.speed_history key) v0
          else s.speed_history k) → 0 ≤ v ∧ v ≤ cfg.max_reasonable_speed := by
      intro k v hv
      by_cases hk : k = key
      · exact hmem v (by simpa [hk] using hv)
      · exact hs k v (by simpa [hk] using hv)
    simp only [smooth_speed]
    split
    · rename_i hlen
      refine ⟨rfl, rfl, rfl, hsh, ?_⟩
      intro v hv
      simp only [Option.some.injEq] at hv
      subst hv
      exact npMedian_bounds
        (List.length_pos.1 (by omega)) (fun x hx => hmem x hx)
    · refine ⟨rfl, rfl, rfl, hsh, ?_⟩
      intro v hv
      simp only [Option.some.injEq] at hv
      exact hv ▸ hv0

theorem applyIncrement_spec (s2 : EstState) (key : String)
    (prevS currS : Pos × ℕ × Bool) (b : Bool)
    (hdt : ∀ kv ∈ s2.distance_traveled, 0 ≤ kv.2) :
    (∀ kv ∈ (applyIncrement s2 key prevS currS b).distance_traveled, 0 ≤ kv.2) ∧
    (∀ k, dtGetD s2.distance_traveled k ≤
      dtGetD (applyIncrement s2 key prevS currS b).distance_traveled k) ∧
    (applyIncrement s2 key prevS currS b).position_history =
      s2.position_history ∧
    (applyIncrement s2 key prevS currS b).speed_history = s2.speed_history ∧
    (applyIncrement s2 key prevS currS b).display_cache = s2.display_cache := by
  unfold applyIncrement
  split
  · cases hinc : calc_distance_increment prevS.1 currS.1 b with
    | none => exact ⟨hdt, fun k => le_refl _, rfl, rfl, rfl⟩
    | some inc =>
      have hincb := calc_distance_increment_bounds hinc
      refine ⟨?_, ?_, rfl, rfl, rfl⟩
      · refine dtSet_forall hdt ?_
        have := dtGetD_nonneg hdt key
        linarith [hincb.1]
      · intro k
        by_cases hk : k = key
        · subst hk
          simp only [dtGetD_dtSet_self]
          linarith [hincb.1]
        · simp only [dtGetD_dtSet_ne _ _ hk, le_refl]
  · exact ⟨hdt, fun k => le_refl _, rfl, rfl, rfl⟩

theorem computeStep_master (cfg : Config) (s1 : EstState) (key : String)
    (pos_hist : List (Pos × ℕ × Bool)) (b : Bool) (info : TrackInfo)
    (hInv : StateInv cfg s1) :
    StateInv cfg (computeStep cfg s1 key pos_hist b info).1 ∧
    (∀ k, dtGetD s1.distance_traveled k ≤
      dtGetD (computeStep cfg s1 key pos_hist b info).1.distance_traveled k) ∧
    (∀ k p, s1.display_cache k = some p →
      ∃ p', (computeStep cfg s1 key pos_hist b info).1.display_cache k = some p' ∧
        p.2 ≤ p'.2) ∧
    ((computeStep cfg s1 key pos_hist b info).1.position_history =
      s1.position_history) ∧
    (info.speed = none → info.distance = none →
      (((computeStep cfg s1 key pos_hist b info).2.speed = none ∧
        (computeStep cfg s1 key pos_hist b info).2.distance = none) ∨
       ∃ v d, (computeStep cfg s1 key pos_hist b info).2.speed = some v ∧
         (computeStep cfg s1 key pos_hist b info).2.distance = some d ∧
         (computeStep cfg s1 key pos_hist b info).1.display_cache key =
           some (v, d))) := by
  obtain ⟨hdt, hcache, hsh⟩ := hInv
  have hraw : ∀ v,
      calc_instantaneous_speed cfg
        ((pySliceLast cfg.smoothing_window pos_hist).map (·.1))
        ((pySliceLast cfg.smoothing_window pos_hist).map (·.2.1)) b = some v →
      0 ≤ v ∧ v ≤ cfg.max_reasonable_speed :=
    fun _ hv => calc_instantaneous_speed_bounds hv
  obtain ⟨hsm_ph, hsm_dt, hsm_dc, hsm_sh, hsm_val⟩ :=
    smooth_speed_spec cfg s1 key _ hsh hraw
  obtain ⟨hai_dt, hai_mono, hai_ph, hai_sh, hai_dc⟩ :=
    applyIncrement_spec (smooth_speed s1 key
        (calc_instantaneous_speed cfg
          ((pySliceLast cfg.smoothing_window pos_hist).map (·.1))
          ((pySliceLast cfg.smoothing_window pos_hist).map (·.2.1)) b)).1 key
      (pos_hist.getD (pos_hist.length - 2) ((0, 0), 0, false))
      (pos_hist.getD (pos_hist.length - 1) ((0, 0), 0, false)) b
      (by rw [hsm_dt]; exact hdt)
  unfold computeStep
  dsimp only
  set SM := smooth_speed s1 key
    (calc_instantaneous_speed cfg
      ((pySliceLast cfg.smoothing_window pos_hist).map (·.1))
      ((pySliceLast cfg.smoothing_window pos_hist).map (·.2.1)) b) with hSM
  set S3 := applyIncrement SM.1 key
    (pos_hist.getD (pos_hist.length - 2) ((0, 0), 0, false))
    (pos_hist.getD (pos_hist.length - 1) ((0, 0), 0, false)) b with hS3
  have hmono13 : ∀ k, dtGetD s1.distance_traveled k ≤
      dtGetD S3.distance_traveled k := by
    intro k
    have h := hai_mono k
    rw [hsm_dt] at h
    exact h
  cases hv : SM.2 with
  | none =>
    dsimp only
    refine ⟨⟨hai_dt, ?_, ?_⟩, hmono13, ?_, by rw [hai_ph, hsm_ph], ?_⟩
    · intro k sp d hc
      rw [hai_dc, hsm_dc] at hc
      obtain ⟨h1, h2, h3, h4⟩ := hcache k sp d hc
      exact ⟨h1, h2, h3, le_trans h4 (hmono13 k)⟩
    · intro k w hw
      rw [hai_sh] at hw
      exact hsm_sh k w hw
    · intro k p hp
      refine ⟨p, ?_, le_refl _⟩
      rw [hai_dc, hsm_dc]
      exact hp
    · intro h1 h2
      exact Or.inl ⟨h1, h2⟩
  | some v =>
    dsimp only
    set DV := dtVivify S3.distance_traveled key with hDV
    set DVAL := dtGetD DV key with hDVAL
    have hvb := hsm_val v hv
    refine ⟨⟨?_, ?_, ?_⟩, ?_, ?_, ?_, ?_⟩
    · exact dtVivify_forall hai_dt (le_refl 0)
    · intro k sp d hc
      dsimp only at hc
      by_cases hk : k = key
      · rw [if_pos hk] at hc
        simp only [Option.some.injEq, Prod.mk.injEq] at hc
        obtain ⟨rfl, rfl⟩ := hc
        refine ⟨hvb.1, hvb.2, ?_, ?_⟩
        · rw [hDVAL, hDV, dtGetD_dtVivify]
          exact dtGetD_nonneg hai_dt key
        · rw [hk]
      · rw [if_neg hk] at hc
        rw [hai_dc, hsm_dc] at hc
        obtain ⟨h1, h2, h3, h4⟩ := hcache k sp d hc
        refine ⟨h1, h2, h3, ?_⟩
        rw [hDV, dtGetD_dtVivify]
        exact le_trans h4 (hmono13 k)
    · intro k w hw
      dsimp only at hw
      rw [hai_sh] at hw
      exact hsm_sh k w hw
    · intro k
      rw [hDV, dtGetD_dtVivify]
      exact hmono13 k
    · intro k p hp
      by_cases hk : k = key
      · rw [hk] at hp
        obtain ⟨_, _, _, h4⟩ := hcache key p.1 p.2 hp
        refine ⟨(v, DVAL), ?_, ?_⟩
        · dsimp only
          rw [if_pos hk]
        · rw [hDVAL, hDV, dtGetD_dtVivify]
          exact le_trans h4 (hmono13 key)
      · refine ⟨p, ?_, le_refl _⟩
        dsimp only
        rw [if_neg hk, hai_dc, hsm_dc]
        exact hp
    · dsimp only
      rw [hai_ph, hsm_ph]
    · intro _ _
      refine Or.inr ⟨v, DVAL, rfl, rfl, ?_⟩
      dsimp only
      rw [if_pos rfl]

theorem processInfo_master (cfg : Config) (s : EstState) (obj tid : String)
    (frame_idx : ℕ) (info : TrackInfo)
    (hmax : 0 ≤ cfg.max_reasonable_speed) (hInv : StateInv cfg s) :
    StateInv cfg (processInfo cfg s obj tid frame_idx info).1 ∧
    (∀ k, dtGetD s.distance_traveled k ≤
      dtGetD (processInfo cfg s obj tid frame_idx info).1.distance_traveled k) ∧
    (∀ k p, s.display_cache k = some p →
      ∃ p', (processInfo cfg s obj tid frame_idx info).1.display_cache k =
        some p' ∧ p.2 ≤ p'.2) ∧
    (info.speed = none → info.distance = none →
      (((processInfo cfg s obj tid frame_idx info).2.speed = none ∧
        (processInfo cfg s obj tid frame_idx info).2.distance = none) ∨
       ∃ v d, (processInfo cfg s obj tid frame_idx info).2.speed = some v ∧
         (processInfo cfg s obj tid frame_idx info).2.distance = some d ∧
         (processInfo cfg s obj tid frame_idx info).1.display_cache
           (mkKey obj tid) = some (v, d))) := by
  unfold processInfo
  dsimp only
  cases hrp : (resolvePosition info).1 with
  | none =>
    dsimp only
    refine ⟨hInv, fun k => le_refl _, fun k p hp => ⟨p, hp, le_refl _⟩, ?_⟩
    intro h1 h2
    unfold applyCacheTo
    cases hdc : s.display_cache (mkKey obj tid) with
    | none => exact Or.inl ⟨h1, h2⟩
    | some c => exact Or.inr ⟨c.1, c.2, rfl, rfl, rfl⟩
  | some p =>
    dsimp only
    split
    · split
      · obtain ⟨h1, h2, h3, _, h5⟩ :=
          computeStep_master cfg
            { s with position_history := fun k =>
                if k = mkKey obj tid then
                  (dqAppend 20 (s.position_history (mkKey obj tid))
                    (p, frame_idx, (resolvePosition info).2))
                else s.position_history k }
            (mkKey obj tid)
            (dqAppend 20 (s.position_history (mkKey obj tid))
              (p, frame_idx, (resolvePosition info).2))
            ((resolvePosition info).2) info hInv
        exact ⟨h1, h2, h3, h5⟩
      · dsimp only
        refine ⟨⟨hInv.1, hInv.2.1, hInv.2.2⟩, fun k => le_refl _,
          fun k p' hp => ⟨p', hp, le_refl _⟩, ?_⟩
        intro h1 h2
        unfold applyCacheTo
        dsimp only
        cases hdc : s.display_cache (mkKey obj tid) with
        | none => exact Or.inl ⟨h1, h2⟩
        | some c => exact Or.inr ⟨c.1, c.2, rfl, rfl, rfl⟩
    · cases hdc : s.display_cache (mkKey obj tid) with
      | none =>
        dsimp only
        refine ⟨⟨hInv.1, ?_, hInv.2.2⟩, fun k => le_refl _, ?_, ?_⟩
        · intro k sp d hc
          dsimp only at hc
          by_cases hk : k = mkKey obj tid
          · rw [if_pos hk] at hc
            simp only [Option.some.injEq, Prod.mk.injEq] at hc
            obtain ⟨rfl, rfl⟩ := hc.symm
            exact ⟨le_refl 0, hmax, le_refl 0, dtGetD_nonneg hInv.1 k⟩
          · rw [if_neg hk] at hc
            exact hInv.2.1 k sp d hc
        · intro k p' hp
          by_cases hk : k = mkKey obj tid
          · rw [hk, hdc] at hp
            exact absurd hp (by simp)
          · refine ⟨p', ?_, le_refl _⟩
            dsimp only
            rw [if_neg hk]
            exact hp
        · intro _ _
          refine Or.inr ⟨0, 0, rfl, rfl, ?_⟩
          dsimp only
          rw [if_pos rfl]
      | some c =>
        dsimp only
        exact ⟨⟨hInv.1, hInv.2.1, hInv.2.2⟩, fun k => le_refl _,
          fun k p' hp => ⟨p', hp, le_refl _⟩, fun h1 h2 => Or.inl ⟨h1, h2⟩⟩

/-- Input records carry no pre-existing speed/distance annotation. -/
def FrameClean (fr : FrameTrack) : Prop :=
  ∀ e ∈ fr, e.2.speed = none ∧ e.2.distance = none

/-- All frames of one entity class are unannotated. -/
def FramesClean (l : List FrameTrack) : Prop := ∀ fr ∈ l, FrameClean fr

/-- The whole input tracks structure is unannotated. -/
def TracksClean (t : Tracks) : Prop := ∀ of ∈ t, FramesClean of.2

theorem processTrack_master (cfg : Config) (obj : String) (frame_idx : ℕ) :
    ∀ (fr : FrameTrack) (s : EstState),
    0 ≤ cfg.max_reasonable_speed → StateInv cfg s →
    StateInv cfg (processTrack cfg obj frame_idx s fr).1 ∧
    (∀ k, dtGetD s.distance_traveled k ≤
      dtGetD (processTrack cfg obj frame_idx s fr).1.distance_traveled k) ∧
    (∀ k p, s.display_cache k = some p →
      ∃ p', (processTrack cfg obj frame_idx s fr).1.display_cache k = some p' ∧
        p.2 ≤ p'.2) := by
  intro fr
  induction fr with
  | nil =>
    intro s _ hInv
    exact ⟨hInv, fun k => le_refl _, fun k p hp => ⟨p, hp, le_refl _⟩⟩
  | cons e rest ih =>
    intro s hmax hInv
    obtain ⟨hInv1, hmono1, hcm1, _⟩ :=
      processInfo_master cfg s obj e.1 frame_idx e.2 hmax hInv
    obtain ⟨hInv2, hmono2, hcm2⟩ :=
      ih (processInfo cfg s obj e.1 frame_idx e.2).1 hmax hInv1
    refine ⟨hInv2, fun k => le_trans (hmono1 k) (hmono2 k), ?_⟩
    intro k p hp
    obtain ⟨p', hp', hle'⟩ := hcm1 k p hp
    obtain ⟨p'', hp'', hle''⟩ := hcm2 k p' hp'
    exact ⟨p'', hp'', le_trans hle' hle''⟩

theorem processTrack_entries (cfg : Config) (obj : String) (frame_idx : ℕ) :
    ∀ (fr : FrameTrack) (s : EstState),
    0 ≤ cfg.max_reasonable_speed → StateInv cfg s → FrameClean fr →
    ∀ e ∈ (processTrack cfg obj frame_idx s fr).2,
      (e.2.speed = none ∧ e.2.distance = none) ∨
      (∃ v d, e.2.speed = some v ∧ e.2.distance = some d ∧
        0 ≤ v ∧ v ≤ cfg.max_reasonable_speed ∧ 0 ≤ d ∧
        (∀ c, s.display_cache (mkKey obj e.1) = some c → c.2 ≤ d) ∧
        (∃ c', (processTrack cfg obj frame_idx s fr).1.display_cache
          (mkKey obj e.1) = some c' ∧ d ≤ c'.2)) := by
  intro fr
  induction fr with
  | nil => intro s _ _ _ e he; exact absurd he (by simp [processTrack])
  | cons e0 rest ih =>
    intro s hmax hInv hclean e he
    obtain ⟨hInv1, hmono1, hcm1, hannot⟩ :=
      processInfo_master cfg s obj e0.1 frame_idx e0.2 hmax hInv
    have hclean0 := hclean e0 (by simp)
    simp only [processTrack, List.mem_cons] at he
    rcases he with he | he
    · -- the head entry of the output frame
      subst he
      rcases hannot hclean0.1 hclean0.2 with hnone | ⟨v, d, hv, hd, hck⟩
      · exact Or.inl hnone
      · right
        refine ⟨v, d, hv, hd, ?_, ?_, ?_, ?_, ?_⟩
        · exact (hInv1.2.1 _ v d hck).1
        · exact (hInv1.2.1 _ v d hck).2.1
        · exact (hInv1.2.1 _ v d hck).2.2.1
        · intro c hc
          obtain ⟨p', hp', hle⟩ := hcm1 _ c hc
          rw [hck] at hp'
          cases hp'
          exact hle
        · obtain ⟨_, _, hcm2⟩ :=
            processTrack_master cfg obj frame_idx rest
              (processInfo cfg s obj e0.1 frame_idx e0.2).1 hmax hInv1
          obtain ⟨c', hc', hle'⟩ := hcm2 _ (v, d) hck
          exact ⟨c', hc', hle'⟩
    · -- an entry of the tail
      have htail := ih (processInfo cfg s obj e0.1 frame_idx e0.2).1 hmax hInv1
        (fun e' he' => hclean e' (by simp [he'])) e he
      rcases htail with hnone | ⟨v, d, hv, hd, h0v, hvmax, h0d, hback, hfwd⟩
      · exact Or.inl hnone
      · right
        refine ⟨v, d, hv, hd, h0v, hvmax, h0d, ?_, hfwd⟩
        intro c hc
        obtain ⟨p', hp', hle⟩ := hcm1 _ c hc
        exact le_trans hle (hback p' hp')

theorem processFrames_master (cfg : Config) (obj : String) :
    ∀ (frames : List FrameTrack) (s : EstState) (i0 : ℕ),
    0 ≤ cfg.max_reasonable_speed → StateInv cfg s →
    StateInv cfg (processFrames cfg obj s i0 frames).1 ∧
    (∀ k, dtGetD s.distance_traveled k ≤
      dtGetD (processFrames cfg obj s i0 frames).1.distance_traveled k) ∧
    (∀ k p, s.display_cache k = some p →
      ∃ p', (processFrames cfg obj s i0 frames).1.display_cache k = some p' ∧
        p.2 ≤ p'.2) := by
  intro frames
  induction frames with
  | nil =>
    intro s i0 _ hInv
    exact ⟨hInv, fun k => le_refl _, fun k p hp => ⟨p, hp, le_refl _⟩⟩
  | cons fr rest ih =>
    intro s i0 hmax hInv
    obtain ⟨hInv1, hmono1, hcm1⟩ := processTrack_master cfg obj i0 fr s hmax hInv
    obtain ⟨hInv2, hmono2, hcm2⟩ :=
      ih (processTrack cfg obj i0 s fr).1 (i0 + 1) hmax hInv1
    refine ⟨hInv2, fun k => le_trans (hmono1 k) (hmono2 k), ?_⟩
    intro k p hp
    obtain ⟨p', hp', hle'⟩ := hcm1 k p hp
    obtain ⟨p'', hp'', hle''⟩ := hcm2 k p' hp'
    exact ⟨p'', hp'', le_trans hle' hle''⟩

theorem processFrames_entries (cfg : Config) (obj : String) :
    ∀ (frames : List FrameTrack) (s : EstState) (i0 : ℕ),
    0 ≤ cfg.max_reasonable_speed → StateInv cfg s → FramesClean frames →
    ∀ (j : ℕ), ∀ e ∈ (processFrames cfg obj s i0 frames).2.getD j [],
      (e.2.speed = none ∧ e.2.distance = none) ∨
      (∃ v d, e.2.speed = some v ∧ e.2.distance = some d ∧
        0 ≤ v ∧ v ≤ cfg.max_reasonable_speed ∧ 0 ≤ d) := by
  intro frames
  induction frames with
  | nil => intro s i0 _ _ _ j e he; exact absurd he (by simp [processFrames])
  | cons fr rest ih =>
    intro s i0 hmax hInv hclean j e he
    obtain ⟨hInv1, _, _⟩ := processTrack_master cfg obj i0 fr s hmax hInv
    simp only [processFrames] at he
    cases j with
    | zero =>
      simp only [List.getD_cons_zero] at he
      rcases processTrack_entries cfg obj i0 fr s hmax hInv
          (hclean fr (by simp)) e he with hnone | ⟨v, d, hv, hd, h1, h2, h3, _, _⟩
      · exact Or.inl hnone
      · exact Or.inr ⟨v, d, hv, hd, h1, h2, h3⟩
    | succ j' =>
      simp only [List.getD_cons_succ] at he
      exact ih (processTrack cfg obj i0 s fr).1 (i0 + 1) hmax hInv1
        (fun fr' hfr' => hclean fr' (by simp [hfr'])) j' e he

theorem processFrames_lower (cfg : Config) (obj : String) :
    ∀ (frames : List FrameTrack) (s : EstState) (i0 : ℕ),
    0 ≤ cfg.max_reasonable_speed → StateInv cfg s → FramesClean frames →
    ∀ (j : ℕ), ∀ e ∈ (processFrames cfg obj s i0 frames).2.getD j [],
      ∀ d, e.2.distance = some d →
      ∀ c, s.display_cache (mkKey obj e.1) = some c → c.2 ≤ d := by
  intro frames
  induction frames with
  | nil => intro s i0 _ _ _ j e he; exact absurd he (by simp [processFrames])
  | cons fr rest ih =>
    intro s i0 hmax hInv hclean j e he d hd c hc
    obtain ⟨hInv1, _, hcm1⟩ := processTrack_master cfg obj i0 fr s hmax hInv
    simp only [processFrames] at he
    cases j with
    | zero =>
      simp only [List.getD_cons_zero] at he
      rcases processTrack_entries cfg obj i0 fr s hmax hInv
          (hclean fr (by simp)) e he with hnone | ⟨v, d', hv, hd', _, _, _, hback, _⟩
      · rw [hnone.2] at hd; cases hd
      · rw [hd'] at hd
        cases hd
        exact hback c hc
    | succ j' =>
      simp only [List.getD_cons_succ] at he
      obtain ⟨c', hc', hle'⟩ := hcm1 _ c hc
      exact le_trans hle'
        (ih (processTrack cfg obj i0 s fr).1 (i0 + 1) hmax hInv1
          (fun fr' hfr' => hclean fr' (by simp [hfr'])) j' e he d hd c' hc')

theorem processFrames_mono (cfg : Config) (obj : String) :
    ∀ (frames : List FrameTrack) (s : EstState) (i0 : ℕ),
    0 ≤ cfg.max_reasonable_speed → StateInv cfg s → FramesClean frames →
    ∀ (i j : ℕ), i < j → ∀ (tid : String) (a b : TrackInfo),
      (tid, a) ∈ (processFrames cfg obj s i0 frames).2.getD i [] →
      (tid, b) ∈ (processFrames cfg obj s i0 frames).2.getD j [] →
      ∀ d1 d2, a.distance = some d1 → b.distance = some d2 → d1 ≤ d2 := by
  intro frames
  induction frames with
  | nil => intro s i0 _ _ _ i j _ tid a b ha _; exact absurd ha (by simp [processFrames])
  | cons fr rest ih =>
    intro s i0 hmax hInv hclean i j hij tid a b ha hb d1 d2 hd1 hd2
    obtain ⟨hInv1, _, _⟩ := processTrack_master cfg obj i0 fr s hmax hInv
    simp only [processFrames] at ha hb
    have hcleanT := fun fr' hfr' => hclean fr' (List.mem_cons_of_mem fr hfr')
    cases i with
    | zero =>
      cases j with
      | zero => exact absurd hij (by omega)
      | succ j' =>
        simp only [List.getD_cons_zero] at ha
        simp only [List.getD_cons_succ] at hb
        rcases processTrack_entries cfg obj i0 fr s hmax hInv
            (hclean fr (by simp)) (tid, a) ha with
          hnone | ⟨v, d', _, hd', _, _, _, _, c', hc', hle'⟩
        · rw [hnone.2] at hd1; cases hd1
        · rw [hd'] at hd1
          cases hd1
          exact le_trans hle'
            (processFrames_lower cfg obj rest (processTrack cfg obj i0 s fr).1
              (i0 + 1) hmax hInv1 hcleanT j' (tid, b) hb d2 hd2 c' hc')
    | succ i' =>
      cases j with
      | zero => exact absurd hij (by omega)
      | succ j' =>
        simp only [List.getD_cons_succ] at ha hb
        exact ih (processTrack cfg obj i0 s fr).1 (i0 + 1) hmax hInv1 hcleanT
          i' j' (by omega) tid a b ha hb d1 d2 hd1 hd2

theorem mem_getD_mem {α : Type _} {l : List (List α)} {j : ℕ} {e : α}
    (h : e ∈ l.getD j []) : ∃ fr ∈ l, e ∈ fr := by
  by_cases hj : j < l.length
  · rw [List.getD_eq_getElem l [] hj] at h
    exact ⟨_, List.getElem_mem hj, h⟩
  · rw [List.getD_eq_default l [] (le_of_not_lt hj)] at h
    exact absurd h (List.not_mem_nil e)

theorem addTracks_master (cfg : Config) : ∀ (t : Tracks) (s : EstState),
    0 ≤ cfg.max_reasonable_speed → StateInv cfg s →
    StateInv cfg (add_speed_and_distance_to_tracks cfg s t).1 ∧
    (∀ k, dtGetD s.distance_traveled k ≤
      dtGetD (add_speed_and_distance_to_tracks cfg s t).1.distance_traveled k) ∧
    (∀ k p, s.display_cache k = some p →
      ∃ p', (add_speed_and_distance_to_tracks cfg s t).1.display_cache k =
        some p' ∧ p.2 ≤ p'.2) := by
  intro t
  induction t with
  | nil =>
    intro s _ hInv
    exact ⟨hInv, fun k => le_refl _, fun k p hp => ⟨p, hp, le_refl _⟩⟩
  | cons of rest ih =>
    intro s hmax hInv
    simp only [add_speed_and_distance_to_tracks]
    split
    · exact ih s hmax hInv
    · obtain ⟨hInv1, hmono1, hcm1⟩ :=
        processFrames_master cfg of.1 of.2 s 0 hmax hInv
      obtain ⟨hInv2, hmono2, hcm2⟩ :=
        ih (processFrames cfg of.1 s 0 of.2).1 hmax hInv1
      refine ⟨hInv2, fun k => le_trans (hmono1 k) (hmono2 k), ?_⟩
      intro k p hp
      obtain ⟨p', hp', hle'⟩ := hcm1 k p hp
      obtain ⟨p'', hp'', hle''⟩ := hcm2 k p' hp'
      exact ⟨p'', hp'', le_trans hle' hle''⟩

theorem addTracks_entries (cfg : Config) : ∀ (t : Tracks) (s : EstState),
    0 ≤ cfg.max_reasonable_speed → StateInv cfg s → TracksClean t →
    ∀ of ∈ (add_speed_and_distance_to_tracks cfg s t).2, ∀ (j : ℕ),
      ∀ e ∈ of.2.getD j [],
      (e.2.speed = none ∧ e.2.distance = none) ∨
      (∃ v d, e.2.speed = some v ∧ e.2.distance = some d ∧
        0 ≤ v ∧ v ≤ cfg.max_reasonable_speed ∧ 0 ≤ d) := by
  intro t
  induction t with
  | nil =>
    intro s _ _ _ of hof
    exact absurd hof (by simp [add_speed_and_distance_to_tracks])
  | cons of0 rest ih =>
    intro s hmax hInv hclean of hof j e he
    obtain ⟨hInv1, _, _⟩ := processFrames_master cfg of0.1 of0.2 s 0 hmax hInv
    have hcleanR : TracksClean rest := fun of' hof' =>
      hclean of' (List.mem_cons_of_mem of0 hof')
    simp only [add_speed_and_distance_to_tracks] at hof
    split at hof
    · rcases List.mem_cons.1 hof with rfl | hof'
      · obtain ⟨fr, hfr, hefr⟩ := mem_getD_mem he
        exact Or.inl (hclean of0 (by simp) fr hfr e hefr)
      · exact ih s hmax hInv hcleanR of hof' j e he
    · rcases List.mem_cons.1 hof with rfl | hof'
      · exact processFrames_entries cfg of0.1 of0.2 s 0 hmax hInv
          (hclean of0 (by simp)) j e he
      · exact ih (processFrames cfg of0.1 s 0 of0.2).1 hmax hInv1 hcleanR
          of hof' j e he

theorem addTracks_mono (cfg : Config) : ∀ (t : Tracks) (s : EstState),
    0 ≤ cfg.max_reasonable_speed → StateInv cfg s → TracksClean t →
    ∀ of ∈ (add_speed_and_distance_to_tracks cfg s t).2,
    ∀ (i j : ℕ), i < j → ∀ (tid : String) (a b : TrackInfo),
      (tid, a) ∈ of.2.getD i [] → (tid, b) ∈ of.2.getD j [] →
      ∀ d1 d2, a.distance = some d1 → b.distance = some d2 → d1 ≤ d2 := by
  intro t
  induction t with
  | nil =>
    intro s _ _ _ of hof
    exact absurd hof (by simp [add_speed_and_distance_to_tracks])
  | cons of0 rest ih =>
    intro s hmax hInv hclean of hof i j hij tid a b ha hb d1 d2 hd1 hd2
    obtain ⟨hInv1, _, _⟩ := processFrames_master cfg of0.1 of0.2 s 0 hmax hInv
    have hcleanR : TracksClean rest := fun of' hof' =>
      hclean of' (List.mem_cons_of_mem of0 hof')
    simp only [add_speed_and_distance_to_tracks] at hof
    split at hof
    · rcases List.mem_cons.1 hof with rfl | hof'
      · obtain ⟨fr, hfr, hefr⟩ := mem_getD_mem ha
        have := (hclean of0 (by simp) fr hfr (tid, a) hefr).2
        rw [this] at hd1
        cases hd1
      · exact ih s hmax hInv hcleanR of hof' i j hij tid a b ha hb d1 d2 hd1 hd2
    · rcases List.mem_cons.1 hof with rfl | hof'
      · exact processFrames_mono cfg of0.1 of0.2 s 0 hmax hInv
          (hclean of0 (by simp)) i j hij tid a b ha hb d1 d2 hd1 hd2
      · exact ih (processFrames cfg of0.1 s 0 of0.2).1 hmax hInv1 hcleanR
          of hof' i j hij tid a b ha hb d1 d2 hd1 hd2

/-- Lines 178–183 of the source: a record with no position of any kind
leaves the estimator state untouched and is annotated from the cache
when a cache entry exists, else left alone. -/
theorem processInfo_no_position (cfg : Config) (s : EstState) (obj tid : String)
    (frame_idx : ℕ) (info : TrackInfo)
    (h1 : info.position_transformed = none) (h2 : info.position_adjusted = none)
    (h3 : info.position = none) :
    processInfo cfg s obj tid frame_idx info =
      (s, applyCacheTo s (mkKey obj tid) info) := by
  unfold processInfo resolvePosition
  rw [h1, h2, h3]
  rfl

/-- Lines 191–205 and 234–238 of the source: when the recent window of
the (freshly appended) position history is not coordinate-mode
consistent with the current sample, only the position history changes
and the record falls back to the cache. -/
theorem processInfo_inconsistent (cfg : Config) (s : EstState) (obj tid : String)
    (frame_idx : ℕ) (info : TrackInfo) (p : Pos)
    (hrp : (resolvePosition info).1 = some p)
    (hlen : 2 ≤ (dqAppend 20 (s.position_history (mkKey obj tid))
      (p, frame_idx, (resolvePosition info).2)).length)
    (hmix : ((pySliceLast cfg.smoothing_window
        (dqAppend 20 (s.position_history (mkKey obj tid))
          (p, frame_idx, (resolvePosition info).2))).all
      (fun pd => pd.2.2 == (resolvePosition info).2)) = false) :
    processInfo cfg s obj tid frame_idx info =
      ({ s with position_history := fun k =>
          if k = mkKey obj tid then
            (dqAppend 20 (s.position_history (mkKey obj tid))
              (p, frame_idx, (resolvePosition info).2))
          else s.position_history k },
        applyCacheTo s (mkKey obj tid) info) := by
  have happ : ∀ s' : EstState, s'.display_cache = s.display_cache →
      applyCacheTo s' (mkKey obj tid) info = applyCacheTo s (mkKey obj tid) info := by
    intro s' hs'
    unfold applyCacheTo
    rw [hs']
  unfold processInfo
  dsimp only
  rw [hrp]
  dsimp only
  rw [if_pos hlen, if_neg (by simp [hmix])]
  exact congrArg _ (happ _ rfl)

/-! ### Concrete evaluation scenarios -/

theorem measure_distance_horiz {a b : ℝ} (h : a ≤ b) (y : ℝ) :
    measure_distance (a, y) (b, y) = b - a := by
  unfold measure_distance
  simp only [sub_self, ne_eq, OfNat.ofNat_ne_zero, not_false_eq_true, zero_pow,
    add_zero]
  exact Real.sqrt_sq (by linarith)

/-- A record carrying only a transformed (real-world) position. -/
def infoT (p : Pos) : TrackInfo := { position_transformed := some p }

/-- `infoT p` annotated with a speed and a cumulative distance. -/
def annotInfo (p : Pos) (v d : ℝ) : TrackInfo :=
  { position_transformed := some p, speed := some v, distance := some d }

/-- The estimator state after a first sighting of `players/7` at
real-world `(0, 0)` in frame 0. -/
def stateA : EstState :=
  { position_history := fun k =>
      if k = mkKey "players" "7" then [((0, 0), 0, false)] else []
    speed_history := fun _ => []
    distance_traveled := []
    display_cache := fun k =>
      if k = mkKey "players" "7" then some (0, 0) else none }

theorem stepA : processInfo defaultConfig initState "players" "7" 0 (infoT (0, 0)) =
    (stateA, annotInfo (0, 0) 0 0) := rfl

theorem stepB :
    (processInfo defaultConfig stateA "players" "7" 1 (infoT ((1:ℝ)/10, 0))).2 =
    annotInfo ((1:ℝ)/10, 0) (54/5) (1/10) := by
  norm_num [processInfo, resolvePosition, infoT, annotInfo, stateA, computeStep,
    applyIncrement, calc_instantaneous_speed, calc_distance_increment, pairDistSum,
    smooth_speed, dqAppend, pySliceLast, dtSet, dtGetD, dtMem, dtVivify, pyLast,
    pyHead, defaultConfig, measure_distance_horiz, -Prod.mk_zero_zero]

theorem stepC2 :
    (processInfo defaultConfig stateA "players" "7" 30 (infoT (10, 0))).2 =
    annotInfo (10, 0) 36 0 := by
  norm_num [processInfo, resolvePosition, infoT, annotInfo, stateA, computeStep,
    applyIncrement, calc_instantaneous_speed, calc_distance_increment, pairDistSum,
    smooth_speed, dqAppend, pySliceLast, dtSet, dtGetD, dtMem, dtVivify, pyLast,
    pyHead, defaultConfig, measure_distance_horiz, -Prod.mk_zero_zero]

theorem stepC3 :
    (processInfo defaultConfig stateA "players" "7" 1 (infoT (100, 0))).2 =
    infoT (100, 0) := by
  norm_num [processInfo, resolvePosition, infoT, stateA, computeStep, applyIncrement,
    calc_instantaneous_speed, calc_distance_increment, pairDistSum, smooth_speed,
    dqAppend, pySliceLast, dtSet, dtGetD, dtMem, dtVivify, pyLast, pyHead,
    defaultConfig, measure_distance_horiz, -Prod.mk_zero_zero]

theorem stepC3dt :
    (processInfo defaultConfig stateA "players" "7" 1 (infoT (100, 0))).1.distance_traveled
      = [] := by
  norm_num [processInfo, resolvePosition, infoT, stateA, computeStep, applyIncrement,
    calc_instantaneous_speed, calc_distance_increment, pairDistSum, smooth_speed,
    dqAppend, pySliceLast, dtSet, dtGetD, dtMem, dtVivify, pyLast, pyHead,
    defaultConfig, measure_distance_horiz, -Prod.mk_zero_zero]

/-- Frames 0 and 1: `players/7` moves `0.1 m` along the x-axis. -/
noncomputable def tracksX : Tracks :=
  [("players", [[("7", infoT (0, 0))], [("7", infoT ((1:ℝ)/10, 0))]])]

theorem evalX : (add_speed_and_distance_to_tracks defaultConfig initState tracksX).2 =
    [("players",
      [[("7", annotInfo (0, 0) 0 0)],
       [("7", annotInfo ((1:ℝ)/10, 0) (54/5) (1/10))]])] :=
  congrArg (fun x => [("players", [[("7", annotInfo (0, 0) 0 0)], [("7", x)]])]) stepB

/-- Frames 0 and 30 (29 empty frames between): `players/7` moves from
real-world `(0, 0)` to `(10, 0)`. -/
def tracksC2 : Tracks :=
  [("players",
    [[("7", infoT (0, 0))]] ++ List.replicate 29 ([] : FrameTrack) ++
      [[("7", infoT (10, 0))]])]

theorem evalC2 : (add_speed_and_distance_to_tracks defaultConfig initState tracksC2).2 =
    [("players",
      [[("7", annotInfo (0, 0) 0 0)]] ++ List.replicate 29 ([] : FrameTrack) ++
        [[("7", annotInfo (10, 0) 36 0)]])] :=
  congrArg (fun x => [("players",
    [[("7", annotInfo (0, 0) 0 0)]] ++ List.replicate 29 ([] : FrameTrack) ++
      [[("7", x)]])]) stepC2

/-- Frames 0 and 1: a synthetic 100-meter single-frame jump. -/
def tracksC3 : Tracks :=
  [("players", [[("7", infoT (0, 0))], [("7", infoT (100, 0))]])]

theorem evalC3 : (add_speed_and_distance_to_tracks defaultConfig initState tracksC3).2 =
    [("players",
      [[("7", annotInfo (0, 0) 0 0)], [("7", infoT (100, 0))]])] :=
  congrArg (fun x => [("players",
    [[("7", annotInfo (0, 0) 0 0)], [("7", x)]])]) stepC3

theorem evalC3dt :
    (add_speed_and_distance_to_tracks defaultConfig initState tracksC3).1.distance_traveled
      = [] := stepC3dt

/-! ### Exclusion of the ball and referee classes -/

theorem addTracks_excluded (cfg : Config) : ∀ (t : Tracks) (s : EstState) (n : ℕ),
    ((t.getD n ("", [])).1 = "ball" ∨ (t.getD n ("", [])).1 = "referees") →
    (add_speed_and_distance_to_tracks cfg s t).2.getD n ("", []) =
      t.getD n ("", []) := by
  intro t
  induction t with
  | nil => intro s n _; simp [add_speed_and_distance_to_tracks]
  | cons of0 rest ih =>
    intro s n hex
    simp only [add_speed_and_distance_to_tracks]
    split
    · cases n with
      | zero => simp
      | succ n' =>
        simp only [List.getD_cons_succ] at hex ⊢
        exact ih s n' hex
    · rename_i hnex
      cases n with
      | zero =>
        simp only [List.getD_cons_zero] at hex
        exact absurd hex hnex
      | succ n' =>
        simp only [List.getD_cons_succ] at hex ⊢
        exact ih (processFrames cfg of0.1 s 0 of0.2).1 n' hex

theorem mem_draw_entity {s : EstState} {obj tid : String} {info : TrackInfo}
    {h w : ℕ} {o : OverlayText} (ho : o ∈ draw_entity s obj tid info h w) :
    o.obj = obj ∧ o.tid = tid := by
  unfold draw_entity at ho
  dsimp only at ho
  split at ho
  · split at ho
    · rcases List.mem_cons.1 ho with rfl | ho'
      · exact ⟨rfl, rfl⟩
      · rcases List.mem_cons.1 ho' with rfl | ho''
        · exact ⟨rfl, rfl⟩
        · exact absurd ho'' (List.not_mem_nil o)
    · exact absurd ho (List.not_mem_nil o)
  · exact absurd ho (List.not_mem_nil o)

theorem frameOverlays_not_excluded {s : EstState} {tracks : Tracks}
    {i h w : ℕ} {o : OverlayText} (ho : o ∈ frameOverlays s tracks i h w) :
    ¬(o.obj = "ball" ∨ o.obj = "referees") := by
  unfold frameOverlays at ho
  obtain ⟨ot, hot, ho'⟩ := List.mem_flatMap.1 ho
  split at ho'
  · exact absurd ho' (List.not_mem_nil o)
  · split at ho'
    · exact absurd ho' (List.not_mem_nil o)
    · rename_i hnex _
      obtain ⟨ti, _, hoti⟩ := List.mem_flatMap.1 ho'
      rw [(mem_draw_entity hoti).1]
      exact hnex

/-! ### Rendering lemmas -/

theorem draw_length (s : EstState) (frames : List Image) (tracks : Tracks) :
    (draw_speed_and_distance s frames tracks).length = frames.length := by
  simp [draw_speed_and_distance]

theorem draw_get (s : EstState) (frames : List Image) (tracks : Tracks)
    (i : ℕ) (hi : i < frames.length) :
    (draw_speed_and_distance s frames tracks).getD i ⟨0, 0, []⟩ =
      { frames.getD i ⟨0, 0, []⟩ with
          texts := (frames.getD i ⟨0, 0, []⟩).texts ++
            frameOverlays s tracks i (frames.getD i ⟨0, 0, []⟩).h
              (frames.getD i ⟨0, 0, []⟩).w } := by
  have hlen : i < (draw_speed_and_distance s frames tracks).length := by
    rw [draw_length]; exact hi
  rw [List.getD_eq_getElem _ _ hlen, List.getD_eq_getElem _ _ hi]
  unfold draw_speed_and_distance
  rw [List.getElem_map, List.getElem_enum]

theorem draw_entity_no_value {s : EstState} {obj tid : String} {info : TrackInfo}
    {h w : ℕ} (hs : info.speed = none ∨ info.distance = none)
    (hc : s.display_cache (mkKey obj tid) = none) :
    draw_entity s obj tid info h w = [] := by
  unfold draw_entity
  dsimp only
  rw [if_pos hs, hc]
  rcases hs with hs | hs
  · rw [hs]
  · rw [hs]
    cases info.speed <;> rfl

theorem draw_entity_no_bbox {s : EstState} {obj tid : String} {info : TrackInfo}
    {h w : ℕ} (hb : info.bbox = none) :
    draw_entity s obj tid info h w = [] := by
  unfold draw_entity
  dsimp only
  split
  · rw [hb]
  · rfl

/-! ### Reset and stats lemmas -/

theorem dtGetD_dtDelete_ne (l : List (String × ℝ)) {k k' : String}
    (hne : k' ≠ k) : dtGetD (dtDelete l k) k' = dtGetD l k' := by
  induction l with
  | nil => rfl
  | cons a t ih =>
    by_cases hk : a.1 = k
    · have hak : ¬a.1 = k' := fun h => hne (h.symm.trans hk)
      have hkk : ¬k = k' := fun h => hne h.symm
      simp [dtDelete, dtGetD, hk, hak, hkk]
    · simp [dtDelete, dtGetD, hk, ih]

theorem dtMem_dtDelete_ne (l : List (String × ℝ)) {k k' : String}
    (hne : k' ≠ k) : dtMem (dtDelete l k) k' = dtMem l k' := by
  induction l with
  | nil => rfl
  | cons a t ih =>
    by_cases hk : a.1 = k
    · have hak : ¬a.1 = k' := fun h => hne (h.symm.trans hk)
      have hkk : ¬k = k' := fun h => hne h.symm
      simp [dtDelete, dtMem, hk, hak, hkk]
    · simp [dtDelete, dtMem, hk, ih]

theorem not_mem_dtDelete_self {l : List (String × ℝ)}
    (hnd : (l.map Prod.fst).Nodup) (k : String) :
    ∀ v, (k, v) ∉ dtDelete l k := by
  induction l with
  | nil => intro v hv; exact absurd hv (List.not_mem_nil _)
  | cons a t ih =>
    intro v hv
    simp only [List.map_cons, List.nodup_cons] at hnd
    by_cases hk : a.1 = k
    · rw [dtDelete, if_pos hk] at hv
      have hmem : k ∈ t.map Prod.fst := List.mem_map.2 ⟨(k, v), hv, rfl⟩
      rw [hk] at hnd
      exact hnd.1 hmem
    · rw [dtDelete, if_neg hk] at hv
      rcases List.mem_cons.1 hv with heq | hv'
      · exact hk (congrArg Prod.fst heq).symm
      · exact ih hnd.2 v hv'

theorem mem_stats_key {s : EstState} {k : String} {ps : PlayerStats}
    (h : (k, ps) ∈ get_player_stats s) : ∃ d, (k, d) ∈ s.distance_traveled := by
  unfold get_player_stats at h
  obtain ⟨kv, hkv, heq⟩ := List.mem_map.1 h
  have hk : kv.1 = k := congrArg Prod.fst heq
  exact ⟨kv.2, by rw [← hk]; exact hkv⟩

/-! ### ViewTransformer lemmas -/

/-- A point whose integer truncation already fails the polygon test is
rejected: the code's `pointPolygonTest < 0` branch. -/
theorem transform_point_outside (pt : Pos)
    (h : sideMin ((pyInt pt.1 : ℤ), (pyInt pt.2 : ℤ)) < 0) :
    transform_point pt = none := by
  unfold transform_point
  dsimp only
  rw [if_pos h]

theorem transform_corner_bl : transform_point (110, 1035) = some (0, 68) := by
  norm_num [transform_point, pyInt, sideMin, edgeCross, applyHomography, homography,
    min_def]

theorem transform_corner_tl : transform_point (265, 275) = some (0, 0) := by
  norm_num [transform_point, pyInt, sideMin, edgeCross, applyHomography, homography,
    min_def]

theorem transform_corner_tr : transform_point (910, 260) = some (105, 0) := by
  norm_num [transform_point, pyInt, sideMin, edgeCross, applyHomography, homography,
    min_def]

theorem transform_corner_br : transform_point (1640, 915) = some (105, 68) := by
  norm_num [transform_point, pyInt, sideMin, edgeCross, applyHomography, homography,
    min_def]

/-! ### Claim theorems -/

theorem tracksX_clean : TracksClean tracksX := by
  simp [TracksClean, FramesClean, FrameClean, tracksX, infoT]

theorem tracksC3_clean : TracksClean tracksC3 := by
  simp [TracksClean, FramesClean, FrameClean, tracksC3, infoT]

/-- C1: the cumulative distance accumulator is monotonically
non-decreasing per entity: every applied increment is non-negative and
increments above the per-mode sanity threshold (5 m real-world, 2 m
pixel) are discarded; the accumulator value never decreases across an
update pass; and in the annotated output the cumulative distance at a
later frame is `≥` the value at any earlier frame for the same entity. -/
theorem C1_distance_monotonic (cfg : Config) (s : EstState) (t : Tracks)
    (hmax : 0 ≤ cfg.max_reasonable_speed) (hInv : StateInv cfg s)
    (hclean : TracksClean t) :
    (∀ (prev curr : Pos) (b : Bool) (d : ℝ),
      calc_distance_increment prev curr b = some d →
      0 ≤ d ∧ d ≤ (if b then (2 : ℝ) else 5)) ∧
    (∀ k, dtGetD s.distance_traveled k ≤
      dtGetD (add_speed_and_distance_to_tracks cfg s t).1.distance_traveled k) ∧
    (∀ of ∈ (add_speed_and_distance_to_tracks cfg s t).2,
      ∀ (i j : ℕ), i < j → ∀ (tid : String) (a b : TrackInfo),
        (tid, a) ∈ of.2.getD i [] → (tid, b) ∈ of.2.getD j [] →
        ∀ d1 d2, a.distance = some d1 → b.distance = some d2 → d1 ≤ d2) :=
  ⟨fun _ _ _ _ h => calc_distance_increment_bounds h,
   (addTracks_master cfg t s hmax hInv).2.1,
   addTracks_mono cfg t s hmax hInv hclean⟩

theorem C1_witness :
    (0 : ℝ) ≤ defaultConfig.max_reasonable_speed ∧ StateInv defaultConfig initState ∧
    TracksClean tracksX ∧ (0 : ℝ) ≤ 1/10 :=
  ⟨by norm_num [defaultConfig], stateInv_initState _, tracksX_clean,
    (C1_distance_monotonic defaultConfig initState tracksX
        (by norm_num [defaultConfig]) (stateInv_initState _) tracksX_clean).2.2
      ("players", [[("7", annotInfo (0, 0) 0 0)],
        [("7", annotInfo ((1:ℝ)/10, 0) (54/5) (1/10))]])
      (by rw [evalX]; exact List.mem_singleton.2 rfl)
      0 1 (by omega) "7" (annotInfo (0, 0) 0 0)
      (annotInfo ((1:ℝ)/10, 0) (54/5) (1/10))
      (by simp) (by simp) 0 (1/10) rfl rfl⟩

/-- C2 counterexample: in the spec's end-to-end scenario (entity
`players/7` at real-world `(0,0)` in frame 0 and `(10,0)` in frame 30,
frame rate 30), the frame-30 record is annotated with distance `0.0`,
not `10.0`: the 10 m increment between the two consecutive samples
exceeds the 5 m per-sample-pair threshold and is discarded. -/
theorem C2_counterexample :
    ((add_speed_and_distance_to_tracks defaultConfig initState tracksC2).2.getD 0
      ("", [])).2.getD 30 [] = [("7", annotInfo (10, 0) 36 0)] ∧
    ¬(annotInfo (10, 0) 36 0).distance = some 10 := by
  refine ⟨?_, ?_⟩
  · rw [evalC2]
    rfl
  · simp only [annotInfo, Option.some.injEq]
    norm_num

/-- C2 (amended): with frame rate 30 and an entity sighted only at
real-world `(0,0)` in frame 0 and `(10,0)` in frame 30, update
annotates the frame-30 record with instantaneous speed exactly
`(10 m / 1 s) × 3.6 = 36 km/h` and cumulative distance `0.0 m` — the
10 m inter-sample movement exceeds the 5 m-per-sample-pair rejection
threshold of the incremental-distance algorithm, so nothing is
accumulated. -/
theorem C2_amended :
    ((add_speed_and_distance_to_tracks defaultConfig initState tracksC2).2.getD 0
      ("", [])).2.getD 30 [] = [("7", annotInfo (10, 0) 36 0)] ∧
    (annotInfo (10, 0) 36 0).speed = some 36 ∧
    (annotInfo (10, 0) 36 0).distance = some 0 :=
  ⟨by rw [evalC2]; rfl, rfl, rfl⟩

/-- C3: every speed value update writes to a record or to the display
cache is `≤` the configured ceiling; a raw instantaneous speed above
the ceiling is returned as absent by the speed kernel and an absent
raw speed is never appended to the speed history; and the synthetic
100 m single-frame jump adds nothing to the accumulator and produces
no speed value at all on the jump frame. -/
theorem C3_speed_ceiling (cfg : Config) (s : EstState) (t : Tracks)
    (hmax : 0 ≤ cfg.max_reasonable_speed) (hInv : StateInv cfg s)
    (hclean : TracksClean t) :
    (∀ (positions : List Pos) (indices : List ℕ) (b : Bool) (v : ℝ),
      calc_instantaneous_speed cfg positions indices b = some v →
      v ≤ cfg.max_reasonable_speed) ∧
    (∀ (s' : EstState) (k : String), smooth_speed s' k none = (s', none)) ∧
    (∀ of ∈ (add_speed_and_distance_to_tracks cfg s t).2, ∀ (j : ℕ),
      ∀ e ∈ of.2.getD j [], ∀ v, e.2.speed = some v →
        v ≤ cfg.max_reasonable_speed) ∧
    (∀ k sp d, (add_speed_and_distance_to_tracks cfg s t).1.display_cache k =
      some (sp, d) → sp ≤ cfg.max_reasonable_speed) ∧
    ((add_speed_and_distance_to_tracks defaultConfig initState
        tracksC3).1.distance_traveled = [] ∧
      (add_speed_and_distance_to_tracks defaultConfig initState tracksC3).2 =
        [("players", [[("7", annotInfo (0, 0) 0 0)], [("7", infoT (100, 0))]])]) := by
  refine ⟨fun _ _ _ _ h => (calc_instantaneous_speed_bounds h).2,
    fun _ _ => rfl, ?_, ?_, evalC3dt, evalC3⟩
  · intro of hof j e he v hv
    rcases addTracks_entries cfg t s hmax hInv hclean of hof j e he with
      hnone | ⟨v', d', hv', _, _, hvmax, _⟩
    · rw [hnone.1] at hv; cases hv
    · rw [hv'] at hv
      cases hv
      exact hvmax
  · intro k sp d hc
    exact ((addTracks_master cfg t s hmax hInv).1.2.1 k sp d hc).2.1

theorem C3_witness :
    (0 : ℝ) ≤ defaultConfig.max_reasonable_speed ∧ StateInv defaultConfig initState ∧
    TracksClean tracksC3 ∧
    (add_speed_and_distance_to_tracks defaultConfig initState
      tracksC3).1.distance_traveled = [] :=
  ⟨by norm_num [defaultConfig], stateInv_initState _, tracksC3_clean,
    (C3_speed_ceiling defaultConfig initState tracksC3 (by norm_num [defaultConfig])
      (stateInv_initState _) tracksC3_clean).2.2.2.2.1⟩

/-- C4: during an update step, a record with no position of any kind
(no transformed, adjusted or raw position) leaves the estimator state
untouched and is annotated with exactly the cached speed/distance pair
when a cache entry exists for the entity, and is left unannotated when
none exists. -/
theorem C4_gap_fill (cfg : Config) (s : EstState) (obj tid : String)
    (frame_idx : ℕ) (info : TrackInfo)
    (h1 : info.position_transformed = none) (h2 : info.position_adjusted = none)
    (h3 : info.position = none) :
    (s.display_cache (mkKey obj tid) = none →
      processInfo cfg s obj tid frame_idx info = (s, info)) ∧
    (∀ sp d, s.display_cache (mkKey obj tid) = some (sp, d) →
      processInfo cfg s obj tid frame_idx info =
        (s, { info with speed := some sp, distance := some d })) := by
  constructor
  · intro hc
    rw [processInfo_no_position cfg s obj tid frame_idx info h1 h2 h3]
    unfold applyCacheTo
    rw [hc]
  · intro sp d hc
    rw [processInfo_no_position cfg s obj tid frame_idx info h1 h2 h3]
    unfold applyCacheTo
    rw [hc]

theorem C4_witness :
    ({} : TrackInfo).position_transformed = none ∧
    stateA.display_cache (mkKey "players" "7") = some (0, 0) ∧
    processInfo defaultConfig stateA "players" "7" 1 {} =
      (stateA, { ({} : TrackInfo) with speed := some 0, distance := some 0 }) :=
  ⟨rfl, rfl,
    (C4_gap_fill defaultConfig stateA "players" "7" 1 {} rfl rfl rfl).2 0 0 rfl⟩

/-- C5: when the recent window (the most recent `min(W, history)`
samples of the freshly appended history) is not coordinate-mode
consistent with the current sample, the update step skips the numeric
computation entirely — speed history, accumulator and cache are all
unchanged, only the position history grows — and the record receives
exactly the cached pair when a cache entry exists, else stays
unannotated. -/
theorem C5_mode_isolation (cfg : Config) (s : EstState) (obj tid : String)
    (frame_idx : ℕ) (info : TrackInfo) (p : Pos)
    (hrp : (resolvePosition info).1 = some p)
    (hlen : 2 ≤ (dqAppend 20 (s.position_history (mkKey obj tid))
      (p, frame_idx, (resolvePosition info).2)).length)
    (hmix : ((pySliceLast cfg.smoothing_window
        (dqAppend 20 (s.position_history (mkKey obj tid))
          (p, frame_idx, (resolvePosition info).2))).all
      (fun pd => pd.2.2 == (resolvePosition info).2)) = false) :
    ((processInfo cfg s obj tid frame_idx info).1.speed_history = s.speed_history ∧
     (processInfo cfg s obj tid frame_idx info).1.distance_traveled =
       s.distance_traveled ∧
     (processInfo cfg s obj tid frame_idx info).1.display_cache =
       s.display_cache) ∧
    (s.display_cache (mkKey obj tid) = none →
      (processInfo cfg s obj tid frame_idx info).2 = info) ∧
    (∀ sp d, s.display_cache (mkKey obj tid) = some (sp, d) →
      (processInfo cfg s obj tid frame_idx info).2 =
        { info with speed := some sp, distance := some d }) := by
  rw [processInfo_inconsistent cfg s obj tid frame_idx info p hrp hlen hmix]
  refine ⟨⟨rfl, rfl, rfl⟩, ?_, ?_⟩
  · intro hc
    unfold applyCacheTo
    rw [hc]
  · intro sp d hc
    unfold applyCacheTo
    rw [hc]

/-- Estimator state holding three pixel-mode samples for `players/7`
and a cached speed/distance pair `(7, 3)`. -/
def stateP : EstState :=
  { position_history := fun k =>
      if k = mkKey "players" "7" then
        [((0, 0), 0, true), ((1, 0), 1, true), ((2, 0), 2, true)]
      else []
    speed_history := fun _ => []
    distance_traveled := []
    display_cache := fun k =>
      if k = mkKey "players" "7" then some (7, 3) else none }

theorem C5_witness :
    (resolvePosition (infoT (3, 0))).1 = some (3, 0) ∧
    stateP.display_cache (mkKey "players" "7") = some (7, 3) ∧
    (processInfo defaultConfig stateP "players" "7" 3 (infoT (3, 0))).2 =
      { infoT (3, 0) with speed := some 7, distance := some 3 } :=
  ⟨rfl, rfl,
    (C5_mode_isolation defaultConfig stateP "players" "7" 3 (infoT (3, 0)) (3, 0)
      rfl (by decide) (by decide)).2.2 7 3 rfl⟩

/-- A drawable record: bounding box plus annotated speed/distance. -/
def infoDraw : TrackInfo :=
  { bbox := some (0, 0, 10, 10), speed := some 5, distance := some 2 }

/-- One player frame for the rendering witness. -/
def tracksDraw : Tracks := [("players", [[("7", infoDraw)]])]

/-- One ball frame (an excluded class). -/
def tracksBall : Tracks := [("ball", [[("1", infoT (0, 0))]])]

/-- The speed text line the rendering witness expects. -/
def overlaySpeed : OverlayText :=
  { obj := "players", tid := "7", isSpeedLine := true, value := 5, x := 5, y := 50 }

theorem evalDraw : frameOverlays initState tracksDraw 0 200 200 =
    [overlaySpeed,
     { obj := "players", tid := "7", isSpeedLine := false, value := 2,
       x := 5, y := 68 }] := by
  have hne : ¬("players" = "ball" ∨ "players" = "referees") := by decide
  norm_num [frameOverlays, draw_entity, infoDraw, tracksDraw, overlaySpeed,
    get_foot_position, pyInt, initState, min_def, max_def, hne]

/-- C6 counterexample: an entity class literally named `"referee"`
(singular) is not excluded — the source excludes `"ball"` and
`"referees"` — so its records do acquire a speed field from update. -/
theorem C6_counterexample :
    (add_speed_and_distance_to_tracks defaultConfig initState
      [("referee", [[("1", infoT (0, 0))]])]).2 =
      [("referee", [[("1", annotInfo (0, 0) 0 0)]])] ∧
    (annotInfo (0, 0) 0 0).speed = some 0 := ⟨rfl, rfl⟩

/-- C6 (amended): records under the `"ball"` and `"referees"` entity
classes (the literal strings the source excludes) pass through update
completely unchanged — they never acquire speed or distance fields —
and the renderer never emits an overlay for either class. -/
theorem C6_amended :
    (∀ (cfg : Config) (s : EstState) (t : Tracks) (n : ℕ),
      ((t.getD n ("", [])).1 = "ball" ∨ (t.getD n ("", [])).1 = "referees") →
      (add_speed_and_distance_to_tracks cfg s t).2.getD n ("", []) =
        t.getD n ("", [])) ∧
    (∀ (s : EstState) (tracks : Tracks) (i h w : ℕ) (o : OverlayText),
      o ∈ frameOverlays s tracks i h w →
      o.obj ≠ "ball" ∧ o.obj ≠ "referees") :=
  ⟨fun cfg s t n hex => addTracks_excluded cfg t s n hex,
   fun _ _ _ _ _ _ ho => not_or.1 (frameOverlays_not_excluded ho)⟩

theorem C6_witness :
    ((tracksBall.getD 0 ("", [])).1 = "ball" ∨
      (tracksBall.getD 0 ("", [])).1 = "referees") ∧
    (add_speed_and_distance_to_tracks defaultConfig initState tracksBall).2.getD 0
      ("", []) = tracksBall.getD 0 ("", []) ∧
    overlaySpeed ∈ frameOverlays initState tracksDraw 0 200 200 ∧
    overlaySpeed.obj ≠ "ball" ∧ overlaySpeed.obj ≠ "referees" := by
  have hmem : overlaySpeed ∈ frameOverlays initState tracksDraw 0 200 200 := by
    rw [evalDraw]
    exact List.mem_cons_self _ _
  exact ⟨Or.inl rfl,
    C6_amended.1 defaultConfig initState tracksBall 0 (Or.inl rfl), hmem,
    (C6_amended.2 initState tracksDraw 0 200 200 overlaySpeed hmem).1,
    (C6_amended.2 initState tracksDraw 0 200 200 overlaySpeed hmem).2⟩

/-- State with accumulated distance and speed history for `player_7`
and a second entity `other`. -/
def stateC7 : EstState :=
  { position_history := fun _ => []
    speed_history := fun k => if k = "player_7" then [10] else []
    distance_traveled := [("player_7", 5), ("other", 3)]
    display_cache := fun _ => none }

/-- C7 counterexample: after `reset("player_7")` the stats mapping has
no row for `player_7` at all (the key is deleted from the accumulator,
and `get_player_stats` iterates accumulator keys) — it does not show a
zero-distance row for that key as the claim states. -/
theorem C7_counterexample :
    dtMem stateC7.distance_traveled "player_7" = true ∧
    (∀ ps : PlayerStats, ("player_7", ps) ∉
      get_player_stats (reset_player_data stateC7 (some "player_7"))) := by
  refine ⟨rfl, ?_⟩
  intro ps hps
  have hred : get_player_stats (reset_player_data stateC7 (some "player_7")) =
      [("other", { total_distance := 3, avg_speed := 0, max_speed := 0,
                   current_speed := 0 })] := rfl
  rw [hred] at hps
  simp only [List.mem_singleton, Prod.mk.injEq] at hps
  exact absurd hps.1 (by decide)

/-- C7 (amended): after `reset(k)` for a truthy key `k` (and an
accumulator whose keys are unique, as a Python dict's are), a
subsequent stats call contains no row for `k` at all, while the
position history, speed history, distance accumulator (value and key
presence) and display cache of every other key are unchanged. -/
theorem C7_amended (s : EstState) (k k' : String) (hk : k ≠ "")
    (hnd : (s.distance_traveled.map Prod.fst).Nodup) (hk' : k' ≠ k) :
    (∀ ps, (k, ps) ∉ get_player_stats (reset_player_data s (some k))) ∧
    (reset_player_data s (some k)).position_history k' = s.position_history k' ∧
    (reset_player_data s (some k)).speed_history k' = s.speed_history k' ∧
    dtGetD (reset_player_data s (some k)).distance_traveled k' =
      dtGetD s.distance_traveled k' ∧
    dtMem (reset_player_data s (some k)).distance_traveled k' =
      dtMem s.distance_traveled k' ∧
    (reset_player_data s (some k)).display_cache k' = s.display_cache k' := by
  unfold reset_player_data
  dsimp only
  rw [if_neg hk]
  refine ⟨?_, by simp [hk'], by simp [hk'], dtGetD_dtDelete_ne _ hk',
    dtMem_dtDelete_ne _ hk', by simp [hk']⟩
  intro ps hps
  obtain ⟨d, hd⟩ := mem_stats_key hps
  exact not_mem_dtDelete_self hnd k d hd

theorem C7_witness :
    ("player_7" : String) ≠ "" ∧
    (stateC7.distance_traveled.map Prod.fst).Nodup ∧
    ("other" : String) ≠ "player_7" ∧
    ("player_7", (⟨0, 0, 0, 0⟩ : PlayerStats)) ∉
      get_player_stats (reset_player_data stateC7 (some "player_7")) ∧
    (reset_player_data stateC7 (some "player_7")).speed_history "other" =
      stateC7.speed_history "other" :=
  ⟨by decide, by decide, by decide,
   (C7_amended stateC7 "player_7" "other" (by decide) (by decide) (by decide)).1 _,
   (C7_amended stateC7 "player_7" "other" (by decide) (by decide)
     (by decide)).2.2.1⟩

/-- C8 counterexample: the point `(1640.5, 915)` lies strictly outside
the calibration quadrilateral (its rightmost vertex is `x = 1640`),
yet `transform_point` does not return absence: the code truncates the
point to integers before the polygon test, and the truncation
`(1640, 915)` is exactly a corner, which passes the boundary-inclusive
test. -/
theorem C8_counterexample :
    sideMin (1640.5, 915) < 0 ∧ transform_point (1640.5, 915) ≠ none := by
  constructor
  · norm_num [sideMin, edgeCross, min_def]
  · norm_num [transform_point, pyInt, sideMin, edgeCross, min_def]
    exact Option.some_ne_none _

/-- C8 (amended): for every point whose integer-truncated coordinates
lie strictly outside the calibration quadrilateral, `transform_point`
returns absence (and any failure is absorbed into the `Option`, never
raised); and each of the four pixel corners is mapped (boundary
inclusive) to exactly the corresponding real-world corner — in
particular within any positive epsilon of it. -/
theorem C8_amended :
    (∀ pt : Pos, sideMin ((pyInt pt.1 : ℤ), (pyInt pt.2 : ℤ)) < 0 →
      transform_point pt = none) ∧
    transform_point (110, 1035) = some (0, 68) ∧
    transform_point (265, 275) = some (0, 0) ∧
    transform_point (910, 260) = some (105, 0) ∧
    transform_point (1640, 915) = some (105, 68) :=
  ⟨transform_point_outside, transform_corner_bl, transform_corner_tl,
   transform_corner_tr, transform_corner_br⟩

theorem C8_witness :
    sideMin (((pyInt (0:ℝ) : ℤ) : ℝ), ((pyInt (0:ℝ) : ℤ) : ℝ)) < 0 ∧
    transform_point (0, 0) = none :=
  ⟨by norm_num [pyInt, sideMin, edgeCross, min_def],
   C8_amended.1 (0, 0) (by norm_num [pyInt, sideMin, edgeCross, min_def])⟩

/-- C9: render produces exactly one output image per input frame; each
output image is a copy of the corresponding input frame with that
frame's overlay texts appended (the input sequence itself is not
mutated — outputs are fresh copies); and an entity whose speed or
distance cannot be resolved from its record or the cache, or whose
bounding box is missing, contributes no overlay at all, without
aborting the frame or the batch. -/
theorem C9_render (s : EstState) (frames : List Image) (tracks : Tracks) :
    (draw_speed_and_distance s frames tracks).length = frames.length ∧
    (∀ i, i < frames.length →
      (draw_speed_and_distance s frames tracks).getD i ⟨0, 0, []⟩ =
        { frames.getD i ⟨0, 0, []⟩ with
            texts := (frames.getD i ⟨0, 0, []⟩).texts ++
              frameOverlays s tracks i (frames.getD i ⟨0, 0, []⟩).h
                (frames.getD i ⟨0, 0, []⟩).w }) ∧
    (∀ (obj tid : String) (info : TrackInfo) (h w : ℕ),
      (info.speed = none ∨ info.distance = none) →
      s.display_cache (mkKey obj tid) = none →
      draw_entity s obj tid info h w = []) ∧
    (∀ (obj tid : String) (info : TrackInfo) (h w : ℕ),
      info.bbox = none → draw_entity s obj tid info h w = []) :=
  ⟨draw_length s frames tracks, fun i hi => draw_get s frames tracks i hi,
   fun _ _ _ _ _ hs hc => draw_entity_no_value hs hc,
   fun _ _ _ _ _ hb => draw_entity_no_bbox hb⟩

theorem C9_witness :
    (draw_speed_and_distance initState [(⟨100, 200, []⟩ : Image)] []).length =
      [(⟨100, 200, []⟩ : Image)].length ∧
    (draw_speed_and_distance initState [(⟨100, 200, []⟩ : Image)] []).getD 0
        ⟨0, 0, []⟩ =
      { (⟨100, 200, []⟩ : Image) with
          texts := (⟨100, 200, []⟩ : Image).texts ++
            frameOverlays initState [] 0 (⟨100, 200, []⟩ : Image).h
              (⟨100, 200, []⟩ : Image).w } ∧
    draw_entity initState "players" "7" {} 100 200 = [] :=
  ⟨(C9_render initState [⟨100, 200, []⟩] []).1,
   (C9_render initState [⟨100, 200, []⟩] []).2.1 0 (by simp),
   (C9_render initState [⟨100, 200, []⟩] []).2.2.1 "players" "7" {} 100 200
     (Or.inl rfl) rfl⟩

/-- C10: every speed and distance value update writes to a track
record, to the display cache, or into the accumulator is non-negative
(first-sighting seeds are exactly 0, computed speeds are non-negative
sums of distances over a positive time, medians of non-negative
samples are non-negative, and the accumulator grows only by
non-negative increments). -/
theorem C10_nonneg (cfg : Config) (s : EstState) (t : Tracks)
    (hmax : 0 ≤ cfg.max_reasonable_speed) (hInv : StateInv cfg s)
    (hclean : TracksClean t) :
    (∀ of ∈ (add_speed_and_distance_to_tracks cfg s t).2, ∀ (j : ℕ),
      ∀ e ∈ of.2.getD j [],
        (∀ v, e.2.speed = some v → 0 ≤ v) ∧
        (∀ d, e.2.distance = some d → 0 ≤ d)) ∧
    (∀ k sp d, (add_speed_and_distance_to_tracks cfg s t).1.display_cache k =
      some (sp, d) → 0 ≤ sp ∧ 0 ≤ d) ∧
    (∀ kv ∈ (add_speed_and_distance_to_tracks cfg s t).1.distance_traveled,
      0 ≤ kv.2) := by
  refine ⟨?_, ?_, (addTracks_master cfg t s hmax hInv).1.1⟩
  · intro of hof j e he
    rcases addTracks_entries cfg t s hmax hInv hclean of hof j e he with
      hnone | ⟨v, d, hv, hd, h0v, _, h0d⟩
    · constructor
      · intro v' hv'
        rw [hnone.1] at hv'
        cases hv'
      · intro d' hd'
        rw [hnone.2] at hd'
        cases hd'
    · constructor
      · intro v' hv'
        rw [hv] at hv'
        cases hv'
        exact h0v
      · intro d' hd'
        rw [hd] at hd'
        cases hd'
        exact h0d
  · intro k sp d hc
    have h := (addTracks_master cfg t s hmax hInv).1.2.1 k sp d hc
    exact ⟨h.1, h.2.2.1⟩

theorem C10_witness :
    (0 : ℝ) ≤ defaultConfig.max_reasonable_speed ∧ StateInv defaultConfig initState ∧
    TracksClean tracksX ∧ (0 : ℝ) ≤ 54/5 :=
  ⟨by norm_num [defaultConfig], stateInv_initState _, tracksX_clean,
    ((C10_nonneg defaultConfig initState tracksX (by norm_num [defaultConfig])
        (stateInv_initState _) tracksX_clean).1
      ("players", [[("7", annotInfo (0, 0) 0 0)],
        [("7", annotInfo ((1:ℝ)/10, 0) (54/5) (1/10))]])
      (by rw [evalX]; exact List.mem_singleton.2 rfl) 1
      ("7", annotInfo ((1:ℝ)/10, 0) (54/5) (1/10)) (by simp)).1 (54/5) rfl⟩

end SportCV
